import Mathlib

/-!
# IrrlichtBAW streaming transient data buffer

A shallow embedding of
* `include/irr/video/StreamingTransientDataBuffer.h` (`StreamingTransientDataBufferST`,
  `DeferredFreeFunctor`),
* `include/irr/core/alloc/AddressAllocatorState.h` (`AddressAllocatorState`),
* `include/IDriver.h` (`IDriver::updateBufferRangeViaStagingBuffer`).

Conventions.
* `size_type` is `uint32_t`; arithmetic on it is written with an explicit `% sizeMod`.
* A C array handed over as a pointer is a function from index to element (`Ptr`);
  `p + k` is `Ptr.offset p k`.
* Collaborators whose code is not part of the sources (the address allocator, the fence
  state of the GPU, the clock) are parameters of the definitions.
* Every definition carries a `trace` of the collaborator calls it made, in call order.
* A call of the buffer class that runs into undefined behaviour (`flowsOffTheEnd`) has no
  result: `none`.
-/

namespace irr

/-! ## Definitions -/

/-- Number of values of `size_type`, which is `uint32_t` (the default `_size_type`). -/
def sizeMod : Nat := 2 ^ 32

/-- Modelled from the spec: `invalid_address` is `BasicAddressAllocator::invalid_address`,
declared in GeneralpurposeAddressAllocator.h, which is not among the sources. The spec
fixes the sentinel as the maximum representable value of the size type. -/
def invalid_address : Nat := 2 ^ 32 - 1

/-- A pointer to an array of `size_type` (or of bytes): index to element. -/
abbrev Ptr : Type := Nat → Nat

/-- Pointer arithmetic `p + k`. -/
def Ptr.offset (p : Ptr) (k : Nat) : Ptr := fun i => p (k + i)

/-- The call `memcpy(dst + off, src, n)`: the `n` cells of `dst` from `off` on are
replaced by the first `n` cells of `src`, all other cells keep their value. -/
def memcpy (dst : Ptr) (off : Nat) (src : Ptr) (n : Nat) : Ptr :=
  fun p => if off ≤ p ∧ p < off + n then src (p - off) else dst p

/-- The address allocator `mAllocator` (a `HeterogenousMemoryAddressAllocatorAdaptor` over
`GeneralpurposeAddressAllocator`) is declared outside the sources; its two entry points
used by the buffer are parameters. `σ` is its state, `α` the type of the trailing
`args...` of `multi_alloc_addr`. `multi_alloc_addr` returns the new contents of
`outAddresses`. -/
structure AddressAllocator (σ α : Type) where
  multi_alloc_addr : σ → Nat → Ptr → Ptr → α → σ × Ptr
  multi_free_addr : σ → Nat → Ptr → Ptr → σ

/-- The `count` pairs `(addr[i], bytes[i])` behind two array pointers, in order. -/
def rangesOf (count : Nat) (addr bytes : Ptr) : List (Nat × Nat) :=
  (List.range count).map (fun i => (addr i, bytes i))

/-- Calls made by the buffer on its collaborators, recorded in call order:
`alloc` is `mAllocator.multi_alloc_addr` (with the requested sizes), `free` is
`mAllocator.multi_free_addr` called by `multi_free`, `addEvent` and `wait` are
`deferredFrees.addEvent` and `deferredFrees.waitUntilForReadyEvents`, and `exec` is the
execution of a queued functor (with the fence it was queued under and the ranges it hands
to `multi_free_addr`). -/
inductive Event where
  | alloc (requests : List Nat)
  | wait (maxWaitPoint unallocatedSize : Nat)
  | exec (fence : Nat) (ranges : List (Nat × Nat))
  | addEvent (fence : Nat) (ranges : List (Nat × Nat))
  | free (ranges : List (Nat × Nat))
  deriving DecidableEq, Repr

/-- The class `DeferredFreeFunctor`: `rangeData` holds `numAllocs` addresses followed by
`numAllocs` sizes. (`allocRef` always points at the owning buffer's `mAllocator`.) -/
structure DeferredFreeFunctor where
  rangeData : Ptr
  numAllocs : Nat

/-- The constructor `DeferredFreeFunctor(alloctr, numAllocsToFree, addrs, bytes)`:
fresh storage of `2*numAllocs` cells, then two `memcpy`s. -/
def DeferredFreeFunctor.construct (numAllocsToFree : Nat) (addrs bytes : Ptr) :
    DeferredFreeFunctor :=
  let rangeData0 : Ptr := fun _ => 0
  let rangeData1 := memcpy rangeData0 0 addrs numAllocsToFree
  let rangeData2 := memcpy rangeData1 numAllocsToFree bytes numAllocsToFree
  { rangeData := rangeData2, numAllocs := numAllocsToFree }

/-- The ranges a functor hands to `multi_free_addr`: address `i` paired with size `i`. -/
def DeferredFreeFunctor.ranges (f : DeferredFreeFunctor) : List (Nat × Nat) :=
  rangesOf f.numAllocs f.rangeData (f.rangeData.offset f.numAllocs)

/-- The call `DeferredFreeFunctor::operator()()`:
`allocRef->multi_free_addr(numAllocs, rangeData, rangeData+numAllocs)`. -/
def DeferredFreeFunctor.operator_call {σ α : Type} (A : AddressAllocator σ α)
    (f : DeferredFreeFunctor) (s : σ) : σ :=
  A.multi_free_addr s f.numAllocs f.rangeData (f.rangeData.offset f.numAllocs)

/-- The `for` loop of `DeferredFreeFunctor::operator()(size_type&)`, with `k` iterations
left and loop index `i`; yields the new `unallocatedSize` and the returned `bool`. The
index `numAllocs+i` stays within `size_type`: a functor holds the ranges of live
allocations of one buffer, fewer than `2 ^ 31` of them. -/
def DeferredFreeFunctor.sizeLoop (f : DeferredFreeFunctor) : Nat → Nat → Nat → Nat × Bool
  | 0, _, unallocatedSize => (unallocatedSize, unallocatedSize == 0)
  | k + 1, i, unallocatedSize =>
    let freedSize := f.rangeData (f.numAllocs + i)
    if unallocatedSize > freedSize then
      DeferredFreeFunctor.sizeLoop f k (i + 1) (unallocatedSize - freedSize)
    else
      (0, true)

/-- The call `DeferredFreeFunctor::operator()(size_type& unallocatedSize)`: allocator
state afterwards, the new `unallocatedSize` and the returned `bool`. -/
def DeferredFreeFunctor.operator_call_size {σ α : Type} (A : AddressAllocator σ α)
    (f : DeferredFreeFunctor) (s : σ) (unallocatedSize : Nat) : σ × Nat × Bool :=
  (f.operator_call A s, f.sizeLoop f.numAllocs 0 unallocatedSize)

/-- Control that reaches the closing brace of a function with a non-`void` return type
without having met a `return` statement: undefined behaviour. The call has no defined
result (`none`), whatever its body had done by then (`reached`). -/
def flowsOffTheEnd {β γ : Type} (reached : β) : Option γ :=
  Function.const β none reached

/-- The statements of the body of the move assignment
`DeferredFreeFunctor& operator=(DeferredFreeFunctor&& other)`: the members of `other` are
taken over and `other` is left with `rangeData = nullptr` and `numAllocs = 0`. The pair is
the assigned object and the moved-from `other`. -/
def DeferredFreeFunctor.operator_assign_body (target other : DeferredFreeFunctor) :
    DeferredFreeFunctor × DeferredFreeFunctor :=
  let target1 := { target with rangeData := other.rangeData, numAllocs := other.numAllocs }
  let other1 := { other with rangeData := fun _ => 0, numAllocs := 0 }
  (target1, other1)

/-- The move assignment `DeferredFreeFunctor& operator=(DeferredFreeFunctor&& other)`: after
its statements the body ends, with no `return *this`. -/
def DeferredFreeFunctor.operator_assign (target other : DeferredFreeFunctor) :
    Option (DeferredFreeFunctor × DeferredFreeFunctor) :=
  flowsOffTheEnd (DeferredFreeFunctor.operator_assign_body target other)

/-- The move constructor `DeferredFreeFunctor(DeferredFreeFunctor&& other)`, whose body is
`*this = std::forward<DeferredFreeFunctor>(other)`, run on members not yet initialised
(the move assignment reads none of them). The copy constructor is deleted. -/
def DeferredFreeFunctor.move_construct (other : DeferredFreeFunctor) :
    Option (DeferredFreeFunctor × DeferredFreeFunctor) :=
  DeferredFreeFunctor.operator_assign { rangeData := fun _ => 0, numAllocs := 0 } other

/-- A `DeferredFreeFunctor` as the object it is in host memory: the pointer member
`rangeData`, the index of a cell of host memory (cells of one `size_type` each), and
`numAllocs`. -/
structure DeferredFreeFunctorObject where
  rangeData : Nat
  numAllocs : Nat
  deriving DecidableEq, Repr

/-- The constructor `DeferredFreeFunctor(alloctr, numAllocsToFree, addrs, bytes)` run in the
host memory `mem`, in which the caller's arrays start at the cells `addrs` and `bytes` and
the host allocator returns the block of `2*numAllocs` cells starting at `block`: the
memory after the two `memcpy`s, and the object. -/
def DeferredFreeFunctorObject.construct (mem : Ptr) (block numAllocsToFree addrs bytes : Nat) :
    Ptr × DeferredFreeFunctorObject :=
  let mem1 := memcpy mem block (mem.offset addrs) numAllocsToFree
  let mem2 := memcpy mem1 (block + numAllocsToFree) (mem1.offset bytes) numAllocsToFree
  (mem2, { rangeData := block, numAllocs := numAllocsToFree })

/-- The functor an object is when host memory is `mem`: `rangeData` refers to the cells of
`mem` from the pointer on. -/
def DeferredFreeFunctorObject.load (f : DeferredFreeFunctorObject) (mem : Ptr) :
    DeferredFreeFunctor :=
  { rangeData := mem.offset f.rangeData, numAllocs := f.numAllocs }

/-- The call `DeferredFreeFunctor::operator()()` on an object when host memory is `mem`:
`allocRef->multi_free_addr(numAllocs, rangeData, rangeData+numAllocs)`. -/
def DeferredFreeFunctorObject.operator_call {σ α : Type} (A : AddressAllocator σ α)
    (f : DeferredFreeFunctorObject) (mem : Ptr) (s : σ) : σ :=
  (f.load mem).operator_call A s

/-- State of a `StreamingTransientDataBufferST`: the allocator, the queue of
`deferredFrees` (oldest first, each entry a fence and its functor), the bytes of the
mapped buffer behind `getBufferPointer()`, and the trace of collaborator calls. -/
structure StreamingTransientDataBufferST (σ : Type) where
  mAllocator : σ
  deferredFrees : List (Nat × DeferredFreeFunctor)
  bufferPointer : Ptr
  trace : List Event

/-- The summation loop of `try_multi_alloc` over `i = 0 .. count-1`; the accumulator is a
`size_type`, so `+=` wraps. -/
def unallocatedLoop (outAddresses bytes : Ptr) (count : Nat) : Nat :=
  (List.range count).foldl
    (fun unallocatedSize i =>
      if outAddresses i ≠ invalid_address then unallocatedSize
      else (unallocatedSize + bytes i) % sizeMod)
    0

/-- The method `try_multi_alloc`: one `multi_alloc_addr`, then the summation loop. Yields the
state, the contents of `outAddresses` and the returned `unallocatedSize`. -/
def try_multi_alloc {σ α : Type} (A : AddressAllocator σ α)
    (st : StreamingTransientDataBufferST σ) (count : Nat) (outAddresses bytes : Ptr)
    (args : α) : StreamingTransientDataBufferST σ × Ptr × Nat :=
  let r := A.multi_alloc_addr st.mAllocator count outAddresses bytes args
  ({ st with mAllocator := r.1, trace := st.trace ++ [Event.alloc ((List.range count).map bytes)] }, r.2,
    unallocatedLoop r.2 bytes count)

/-- Modelled from the spec: `GPUEventDeferredHandlerST::waitUntilForReadyEvents` is declared
outside the sources. The spec's `drain_ready(deadline, bytes_needed)` walks the queue
oldest-first; for each ready entry it executes its free and removes it, accumulating
freed bytes; it stops when the freed bytes cover the bytes needed (the functor returns
`true`), when the queue is exhausted, or at the first entry that is not ready. The fences
that have signalled are fixed for the duration of the call (`signalled`), so blocking on
an unsignalled front entry until the deadline cannot make it ready. Works on the queue,
the allocator state, `unallocatedSize` and the trace. -/
def drainReady {σ α : Type} (A : AddressAllocator σ α) (signalled : Nat → Bool) :
    List (Nat × DeferredFreeFunctor) → σ → Nat → List Event →
      List (Nat × DeferredFreeFunctor) × σ × Nat × List Event
  | [], s, unallocatedSize, tr => ([], s, unallocatedSize, tr)
  | (fence, functor) :: rest, s, unallocatedSize, tr =>
    if signalled fence then
      let r := functor.operator_call_size A s unallocatedSize
      if r.2.2 then (rest, r.1, r.2.1, tr ++ [Event.exec fence functor.ranges])
      else drainReady A signalled rest r.1 r.2.1 (tr ++ [Event.exec fence functor.ranges])
    else ((fence, functor) :: rest, s, unallocatedSize, tr)

/-- Modelled from the spec: the call `deferredFrees.waitUntilForReadyEvents(maxWaitPoint,
unallocatedSize)` on the buffer state (see `drainReady`); the handler is declared outside
the sources. `unallocatedSize` is passed by reference; its new value is dropped here
because `multi_alloc` overwrites it before reading it again. -/
def waitUntilForReadyEvents {σ α : Type} (A : AddressAllocator σ α) (signalled : Nat → Bool)
    (st : StreamingTransientDataBufferST σ) (maxWaitPoint unallocatedSize : Nat) :
    StreamingTransientDataBufferST σ :=
  let r := drainReady A signalled st.deferredFrees st.mAllocator unallocatedSize
    (st.trace ++ [Event.wait maxWaitPoint unallocatedSize])
  { st with deferredFrees := r.1, mAllocator := r.2.1, trace := r.2.2.2 }

/-- The `do ... while` loop of `multi_alloc`. `clock` lists the readings that the
following calls of `high_resolution_clock::now()` return; a reading taken from the
exhausted list counts as not below `maxWaitPoint`. -/
def multi_alloc_loop {σ α : Type} (A : AddressAllocator σ α) (signalled : Nat → Bool)
    (count : Nat) (bytes : Ptr) (args : α) (maxWaitPoint : Nat) :
    List Nat → StreamingTransientDataBufferST σ → Ptr → Nat →
      StreamingTransientDataBufferST σ × Ptr × Nat
  | clock, st, outAddresses, unallocatedSize =>
    let st1 := waitUntilForReadyEvents A signalled st maxWaitPoint unallocatedSize
    let r := try_multi_alloc A st1 count outAddresses bytes args
    if r.2.2 = 0 then (r.1, r.2.1, 0)
    else
      match clock with
      | [] => r
      | now :: later =>
        if now < maxWaitPoint then
          multi_alloc_loop A signalled count bytes args maxWaitPoint later r.1 r.2.1 r.2.2
        else r

/-- The method `multi_alloc` with the length of the wait window (50000 ns in the source)
as the parameter `waitNs`. The first clock reading is `clock.headD 0`. -/
def multi_alloc_within {σ α : Type} (waitNs : Nat) (A : AddressAllocator σ α)
    (signalled : Nat → Bool) (clock : List Nat) (st : StreamingTransientDataBufferST σ)
    (count : Nat) (outAddresses bytes : Ptr) (args : α) :
    StreamingTransientDataBufferST σ × Ptr × Nat :=
  let r := try_multi_alloc A st count outAddresses bytes args
  if r.2.2 = 0 then (r.1, r.2.1, 0)
  else
    let maxWaitPoint := clock.headD 0 + waitNs
    multi_alloc_loop A signalled count bytes args maxWaitPoint clock.tail r.1 r.2.1 r.2.2

/-- The method `StreamingTransientDataBufferST::multi_alloc` (wait window of 50 us). -/
def multi_alloc {σ α : Type} (A : AddressAllocator σ α) (signalled : Nat → Bool)
    (clock : List Nat) (st : StreamingTransientDataBufferST σ) (count : Nat)
    (outAddresses bytes : Ptr) (args : α) : StreamingTransientDataBufferST σ × Ptr × Nat :=
  multi_alloc_within 50000 A signalled clock st count outAddresses bytes args

/-- The fill loop of `multi_place` over `i = 0 .. count-1`. -/
def placeLoop (dataToPlace : Nat → Ptr) (outAddresses bytes : Ptr) (count : Nat)
    (buffer : Ptr) : Ptr :=
  (List.range count).foldl
    (fun mem i =>
      if outAddresses i ≠ invalid_address then
        memcpy mem (outAddresses i) (dataToPlace i) (bytes i)
      else mem)
    buffer

/-- The method `StreamingTransientDataBufferST::multi_place`: `multi_alloc` with `alignment`
put in front of `args...`, then the fill loop. -/
def multi_place {σ α : Type} (A : AddressAllocator σ (Ptr × α)) (signalled : Nat → Bool)
    (clock : List Nat) (st : StreamingTransientDataBufferST σ) (count : Nat)
    (dataToPlace : Nat → Ptr) (outAddresses bytes alignment : Ptr) (args : α) :
    StreamingTransientDataBufferST σ × Ptr × Nat :=
  let r := multi_alloc A signalled clock st count outAddresses bytes (alignment, args)
  ({ r.1 with bufferPointer := placeLoop dataToPlace r.2.1 bytes count r.1.bufferPointer },
    r.2.1, r.2.2)

/-- Modelled from the spec: the spec's `enqueue(ranges, token)` appends the record to the
FIFO queue, tagged with the token. -/
def enqueue {σ : Type} (st : StreamingTransientDataBufferST σ) (fence : Nat)
    (functor : DeferredFreeFunctor) : StreamingTransientDataBufferST σ :=
  { st with
    deferredFrees := st.deferredFrees ++ [(fence, functor)],
    trace := st.trace ++ [Event.addEvent fence functor.ranges] }

/-- Modelled from the spec: `GPUEventDeferredHandlerST::addEvent` is declared outside the
sources; it is the spec's `enqueue`. The functor arrives as a temporary of the caller, and
the class deletes its copy constructor, so the record can take the functor over only
through the move constructor; `none` when that has no defined result. -/
def addEvent {σ : Type} (st : StreamingTransientDataBufferST σ) (fence : Nat)
    (functor : DeferredFreeFunctor) : Option (StreamingTransientDataBufferST σ) :=
  (DeferredFreeFunctor.move_construct functor).map (fun moved => enqueue st fence moved.1)

/-- The method `StreamingTransientDataBufferST::multi_free`; a null `fence` is `none`. The
result is `none` when the call has no defined behaviour. -/
def multi_free {σ α : Type} (A : AddressAllocator σ α)
    (st : StreamingTransientDataBufferST σ) (count : Nat) (addr bytes : Ptr)
    (fence : Option Nat) : Option (StreamingTransientDataBufferST σ) :=
  match fence with
  | some f => addEvent st f (DeferredFreeFunctor.construct count addr bytes)
  | none =>
    some { st with
      mAllocator := A.multi_free_addr st.mAllocator count addr bytes,
      trace := st.trace ++ [Event.free (rangesOf count addr bytes)] }

/-! ### `AddressAllocatorState` -/

/-- The template parameter `AddressAlloc` of `AddressAllocatorState` as far as the
constructor uses it: the width of `AddressAlloc::size_type` in bits and the static
`AddressAlloc::reserved_size(alignOffset, bufSz, args...)`. `α` is the type of `args...`. -/
structure AddressAlloc (α : Type) where
  sizeBits : Nat
  reserved_size : Nat → Nat → α → Nat

/-- What the constructor of `AddressAllocatorState` produces: the three leading arguments
handed to the base-class constructor `AddressAlloc(...)` (followed by `args...`), and the
members `reservedSpace` and `bufferStart`. -/
structure AddressAllocatorState (α : Type) where
  baseReservedSpc : Nat
  baseBufferStart : Nat
  baseBufSz : Nat
  baseArgs : α
  reservedSpace : Nat
  bufferStart : Nat

/-- The constructor `AddressAllocatorState(void* buffer, size_type bufSz, Args&&... args)`.
`buffer` is the address held by the pointer. Values converted to `size_type` are reduced
modulo `2 ^ sizeBits`; the unsigned subtraction `bufSz - reserved_size(...)` wraps. -/
def AddressAllocatorState.construct {α : Type} (AA : AddressAlloc α) (buffer bufSz : Nat)
    (args : α) : AddressAllocatorState α :=
  let reservedSpace := AA.reserved_size buffer bufSz args % 2 ^ AA.sizeBits
  { baseReservedSpc := buffer
    baseBufferStart := (buffer + AA.reserved_size buffer bufSz args) % 2 ^ AA.sizeBits
    baseBufSz :=
      (bufSz + 2 ^ AA.sizeBits - AA.reserved_size buffer bufSz args % 2 ^ AA.sizeBits)
        % 2 ^ AA.sizeBits
    baseArgs := args
    reservedSpace := reservedSpace
    bufferStart := buffer + reservedSpace }

/-- The method `AddressAllocatorState::getBufferStart`. -/
def AddressAllocatorState.getBufferStart {α : Type} (s : AddressAllocatorState α) : Nat :=
  s.bufferStart

/-! ### `IDriver::updateBufferRangeViaStagingBuffer` -/

/-- Calls made by `updateBufferRangeViaStagingBuffer`, recorded in call order.
`multi_place` records the offset of `dataPtr` into `data`, the requested size and
alignment, and the `localOffset` it left behind; `flushMappedMemoryRanges` records its
single range `{memory, offset, length}`; `multi_free` records the arguments of
`multi_free(1u, &localOffset, &subSize, fence)`, the count, the one offset and the one size
behind the two pointers, and the fence pointer. An `IDriverFence*` is `none` when null and
`some` of the fence otherwise; `drop` records the receiver of `fence->drop()`. -/
inductive DriverCall where
  | multi_place (dataOffset subSize alignment localOffset : Nat)
  | flushMappedMemoryRanges (memory localOffset subSize : Nat)
  | copyBuffer (readOffset writeOffset length : Nat)
  | placeFence (fence : Option Nat)
  | multi_free (count localOffset subSize : Nat) (fence : Option Nat)
  | drop (fence : Option Nat)
  deriving DecidableEq, Repr

/-- The collaborators of `updateBufferRangeViaStagingBuffer`. `IDriver.h` is written
against members of `defaultUploadBuffer` (`max_alignment`, `max_size`, a `multi_place`
taking a time budget) and helpers (`core::alignDown`, `EMCF_COHERENT`) that the sources do
not contain, and against virtual methods of the driver; all are parameters acting on a
state `ω` of driver and upload buffer. `placeFence` returns an `IDriverFence*`, which the
loop passes on to `multi_free` and uses as the receiver of `drop` without a test. -/
structure Collaborators (ω : Type) where
  alignDown : Nat → Nat → Nat
  max_alignment : ω → ω × Nat
  max_size : ω → ω × Nat
  multi_place : ω → Ptr → Nat → Nat → Nat → ω × Nat
  mappingCapability : ω → Nat
  EMCF_COHERENT : Nat
  getBoundMemory : ω → Nat
  flushMappedMemoryRanges : ω → Nat → Nat → Nat → ω
  copyBuffer : ω → Nat → Nat → Nat → ω
  placeFence : ω → ω × Option Nat
  multi_free : ω → Nat → Nat → Nat → Option Nat → ω
  drop : ω → Option Nat → ω

/-- The method `StreamingTransientDataBufferST::needsManualFlushOrInvalidate`:
`!(mappingCapability & EMCF_COHERENT)`. -/
def needsManualFlushOrInvalidate {ω : Type} (D : Collaborators ω) (w : ω) : Bool :=
  (D.mappingCapability w &&& D.EMCF_COHERENT) == 0

/-- Loop state of `updateBufferRangeViaStagingBuffer`: driver and upload buffer, the
`uint32_t uploadedSize`, and the calls made so far. -/
structure StagingState (ω : Type) where
  world : ω
  uploadedSize : Nat
  trace : List DriverCall

/-- The `uint32_t alignment = defaultUploadBuffer->max_alignment()` of one iteration. -/
def iterAlignment {ω : Type} (D : Collaborators ω) (s : StagingState ω) : Nat :=
  (D.max_alignment s.world).2 % 2 ^ 32

/-- The value `core::alignDown(defaultUploadBuffer->max_size(), alignment)` of one
iteration; `max_size()` is called after `max_alignment()`. -/
def iterCap {ω : Type} (D : Collaborators ω) (s : StagingState ω) : Nat :=
  D.alignDown (D.max_size (D.max_alignment s.world).1).2 (iterAlignment D s)

/-- The `uint32_t subSize = std::min(alignDown(...), size-uploadedSize)` of one iteration;
the assignment converts to `uint32_t`. -/
def iterSubSize {ω : Type} (D : Collaborators ω) (size : Nat) (s : StagingState ω) : Nat :=
  min (iterCap D s) (size - s.uploadedSize) % 2 ^ 32

/-- The call `defaultUploadBuffer->multi_place(500us, 1u, &dataPtr, &localOffset, &subSize,
&alignment)` of one iteration, with `dataPtr = data + uploadedSize` and `localOffset`
preset to `invalid_address`: the state afterwards and the `localOffset` left behind. -/
def iterPlaced {ω : Type} (D : Collaborators ω) (size : Nat) (data : Ptr)
    (s : StagingState ω) : ω × Nat :=
  D.multi_place (D.max_size (D.max_alignment s.world).1).1 (data.offset s.uploadedSize)
    invalid_address (iterSubSize D size s) (iterAlignment D s)

/-- The driver state after the conditional `flushMappedMemoryRanges` of an iteration whose
placement succeeded. -/
def iterFlushed {ω : Type} (D : Collaborators ω) (size : Nat) (data : Ptr)
    (s : StagingState ω) : ω :=
  if needsManualFlushOrInvalidate D (iterPlaced D size data s).1 then
    D.flushMappedMemoryRanges (iterPlaced D size data s).1
      (D.getBoundMemory (iterPlaced D size data s).1) (iterPlaced D size data s).2
      (iterSubSize D size s)
  else (iterPlaced D size data s).1

/-- The flush call of an iteration whose placement succeeded, if one is made. -/
def iterFlushCalls {ω : Type} (D : Collaborators ω) (size : Nat) (data : Ptr)
    (s : StagingState ω) : List DriverCall :=
  if needsManualFlushOrInvalidate D (iterPlaced D size data s).1 then
    [DriverCall.flushMappedMemoryRanges (D.getBoundMemory (iterPlaced D size data s).1)
      (iterPlaced D size data s).2 (iterSubSize D size s)]
  else []

/-- The `writeOffset` argument `offset+uploadedSize` of `copyBuffer`; `size_t` is 64 bits
wide. -/
def iterWriteOffset {ω : Type} (offset : Nat) (s : StagingState ω) : Nat :=
  (offset + s.uploadedSize) % 2 ^ 64

/-- The calls `copyBuffer(...)` and `auto fence = placeFence()` of an iteration whose
placement succeeded: the driver state afterwards and the fence pointer returned. -/
def iterFence {ω : Type} (D : Collaborators ω) (offset size : Nat) (data : Ptr)
    (s : StagingState ω) : ω × Option Nat :=
  D.placeFence
    (D.copyBuffer (iterFlushed D size data s) (iterPlaced D size data s).2
      (iterWriteOffset offset s) (iterSubSize D size s))

/-- One execution of the body of the `for` loop of `updateBufferRangeViaStagingBuffer`
(entered with `uploadedSize < size`). The calls after a successful placement are chained:
each acts on the driver state the one before it left. -/
def stagingIteration {ω : Type} (D : Collaborators ω) (offset size : Nat) (data : Ptr)
    (s : StagingState ω) : StagingState ω :=
  let subSize := iterSubSize D size s
  let placed := iterPlaced D size data s
  let localOffset := placed.2
  let tr1 := s.trace ++
    [DriverCall.multi_place s.uploadedSize subSize (iterAlignment D s) localOffset]
  if localOffset = invalid_address then
    { world := placed.1, uploadedSize := s.uploadedSize, trace := tr1 }
  else
    let fence := iterFence D offset size data s
    { world := D.drop (D.multi_free fence.1 1 localOffset subSize fence.2) fence.2
      uploadedSize := (s.uploadedSize + subSize) % 2 ^ 32
      trace := tr1 ++ iterFlushCalls D size data s ++
        [DriverCall.copyBuffer localOffset (iterWriteOffset offset s) subSize,
          DriverCall.placeFence fence.2,
          DriverCall.multi_free 1 localOffset subSize fence.2,
          DriverCall.drop fence.2] }

/-- The `for` loop of `updateBufferRangeViaStagingBuffer`, run for at most `fuel`
iterations; `none` when the loop has not ended by then. -/
def stagingLoop {ω : Type} (D : Collaborators ω) (offset size : Nat) (data : Ptr) :
    Nat → StagingState ω → Option (StagingState ω)
  | 0, s => if s.uploadedSize < size then none else some s
  | fuel + 1, s =>
    if s.uploadedSize < size then
      stagingLoop D offset size data fuel (stagingIteration D offset size data s)
    else some s

/-- The method `IDriver::updateBufferRangeViaStagingBuffer(buffer, offset, size, data)`,
started on the driver state `w` with an empty trace. -/
def updateBufferRangeViaStagingBuffer {ω : Type} (D : Collaborators ω) (fuel : Nat) (w : ω)
    (offset size : Nat) (data : Ptr) : Option (StagingState ω) :=
  stagingLoop D offset size data fuel { world := w, uploadedSize := 0, trace := [] }

/-! ### Notions used to state the theorems -/

/-- Total number of bytes in the ranges of a functor. -/
def DeferredFreeFunctor.freedBytes (f : DeferredFreeFunctor) : Nat :=
  (f.ranges.map Prod.snd).sum

/-- The allocator state after executing the functors of `entries` in order. -/
def freeAll {σ α : Type} (A : AddressAllocator σ α) (entries : List (Nat × DeferredFreeFunctor))
    (s : σ) : σ :=
  entries.foldl (fun acc e => e.2.operator_call A acc) s

/-- The trace left by executing the functors of `entries` in order. -/
def execEvents (entries : List (Nat × DeferredFreeFunctor)) : List Event :=
  entries.map (fun e => Event.exec e.1 e.2.ranges)

/-- Whether an event is the execution of a queued functor. -/
def Event.isExec : Event → Bool
  | Event.exec _ _ => true
  | _ => false

/-! ### Instances of the parameters used in the examples -/

/-- First-fit search of a free list of `(offset, size)` blocks. -/
def firstFit : List (Nat × Nat) → Nat → Option (Nat × List (Nat × Nat))
  | [], _ => none
  | (off, sz) :: rest, bytes =>
    if bytes ≤ sz then some (off, (off + bytes, sz - bytes) :: rest)
    else
      match firstFit rest bytes with
      | none => none
      | some (a, rest1) => some (a, (off, sz) :: rest1)

/-- A small first-fit address allocator over a list of free `(offset, size)` blocks, used
to instantiate the allocator parameter in the examples: `multi_alloc_addr` serves the
slots still holding `invalid_address` in order, `multi_free_addr` returns each range to
the free list. -/
def freeListAllocator (α : Type) : AddressAllocator (List (Nat × Nat)) α where
  multi_alloc_addr := fun s count outAddresses bytes _ =>
    (List.range count).foldl
      (fun (acc : List (Nat × Nat) × Ptr) i =>
        if acc.2 i = invalid_address then
          match firstFit acc.1 (bytes i) with
          | some (a, s1) => (s1, Function.update acc.2 i a)
          | none => acc
        else acc)
      (s, outAddresses)
  multi_free_addr := fun s count addr bytes =>
    (List.range count).foldl (fun acc i => (addr i, bytes i) :: acc) s

/-- A buffer over `freeListAllocator` with the given free blocks and queue. -/
def exampleBuffer (free : List (Nat × Nat)) (queue : List (Nat × DeferredFreeFunctor)) :
    StreamingTransientDataBufferST (List (Nat × Nat)) :=
  { mAllocator := free, deferredFrees := queue, bufferPointer := fun _ => 0, trace := [] }

/-- An `AddressAlloc` that keeps one 4-byte `size_type` per block of `blockSz` bytes in
its reserved space (32-bit `size_type`). -/
def perBlockAlloc : AddressAlloc Nat :=
  { sizeBits := 32, reserved_size := fun _ bufSz blockSz => bufSz / blockSz * 4 }

/-- Collaborators over a state counting the `multi_place` calls so far: `multi_place`
grants offset `0` on every call whose number is in `grantAt` and leaves `invalid_address`
otherwise; `max_size` is `maxSize`, `max_alignment` is `align`, `alignDown` rounds down to
a multiple; fences are numbered by the call count. -/
def exampleDriver (maxSize align capability : Nat) (grantAt : Nat → Bool) :
    Collaborators Nat :=
  { alignDown := fun v a => v - v % a
    max_alignment := fun w => (w, align)
    max_size := fun w => (w, maxSize)
    multi_place := fun w _ localOffset _ _ => (w + 1, if grantAt w then 0 else localOffset)
    mappingCapability := fun _ => capability
    EMCF_COHERENT := 4
    getBoundMemory := fun _ => 7
    flushMappedMemoryRanges := fun w _ _ _ => w
    copyBuffer := fun w _ _ _ => w
    placeFence := fun w => (w, some w)
    multi_free := fun w _ _ _ _ => w
    drop := fun w _ => w }

/-- A host memory in which a caller keeps the address 64 in cell 0 and the size 100 in
cell 1; every other cell holds 0. -/
def exampleHostMemory : Ptr := fun p => if p = 0 then 64 else if p = 1 then 100 else 0

/-- The memory `mem` after the caller has overwritten its cells 0 and 1 with 7. -/
def overwriteCallerArrays (mem : Ptr) : Ptr := fun p => if p < 2 then 7 else mem p

/-- All slots of `outAddresses` set to `invalid_address`, as before a first request. -/
def allInvalid : Ptr := fun _ => invalid_address

/-- Two payloads: slot 0 holds the bytes 10, 11, 12, ..., slot 1 the bytes 20, 21, .... -/
def examplePayloads : Nat → Ptr := fun i k => 10 * (i + 1) + k

/-- Request sizes 3 and 10. -/
def examplePlaceSizes : Ptr := fun i => if i = 0 then 3 else 10

/-- No fence has signalled. -/
def noneSignalled : Nat → Bool := fun _ => false

/-- Every fence has signalled. -/
def allSignalled : Nat → Bool := fun _ => true

/-- The loop state at the start of an upload on `exampleDriver`. -/
def stagingStart : StagingState Nat := { world := 0, uploadedSize := 0, trace := [] }

/-- Two requests of 2 GiB each. -/
def twoGiB : Ptr := fun _ => 2 ^ 31

/-- A request of 3 GiB followed by requests of 1 GiB. -/
def threePlusOneGiB : Ptr := fun i => if i = 0 then 3 * 2 ^ 30 else 2 ^ 30

/-- A request of 100 bytes followed by requests of 2000 bytes. -/
def smallSizes : Ptr := fun i => if i = 0 then 100 else 2000

/-- Whether a call is a `multi_place`; every iteration of the staging loop makes exactly
one. -/
def DriverCall.isMultiPlace : DriverCall → Bool
  | DriverCall.multi_place _ _ _ _ => true
  | _ => false

/-- The number of iterations of the staging loop recorded in a trace. -/
def iterationCount (trace : List DriverCall) : Nat :=
  trace.countP DriverCall.isMultiPlace

/-- Collaborators whose state is the list of the calls the driver and its upload buffer
have received, in order (`max_alignment` and `max_size` apart; `multi_place` is recorded
with the first byte of its payload); otherwise as `exampleDriver`, with `multi_place` calls
and fences numbered by the `multi_place` calls received so far. -/
def recordingDriver (maxSize align capability : Nat) (grantAt : Nat → Bool) :
    Collaborators (List DriverCall) :=
  { alignDown := fun v a => v - v % a
    max_alignment := fun w => (w, align)
    max_size := fun w => (w, maxSize)
    multi_place := fun w data localOffset subSize alignment =>
      (w ++ [DriverCall.multi_place (data 0) subSize alignment
          (if grantAt (iterationCount w) then 0 else localOffset)],
        if grantAt (iterationCount w) then 0 else localOffset)
    mappingCapability := fun _ => capability
    EMCF_COHERENT := 4
    getBoundMemory := fun _ => 7
    flushMappedMemoryRanges := fun w memory localOffset subSize =>
      w ++ [DriverCall.flushMappedMemoryRanges memory localOffset subSize]
    copyBuffer := fun w readOffset writeOffset length =>
      w ++ [DriverCall.copyBuffer readOffset writeOffset length]
    placeFence := fun w =>
      (w ++ [DriverCall.placeFence (some (iterationCount w))], some (iterationCount w))
    multi_free := fun w count localOffset subSize fence =>
      w ++ [DriverCall.multi_free count localOffset subSize fence]
    drop := fun w fence => w ++ [DriverCall.drop fence] }

/-- The loop state at the start of an upload on `recordingDriver`. -/
def recordingStart : StagingState (List DriverCall) :=
  { world := [], uploadedSize := 0, trace := [] }

/-- The chunk `(offset of dataPtr into data, subSize)` a successful `multi_place` call
placed. -/
def DriverCall.placedChunk : DriverCall → Option (Nat × Nat)
  | DriverCall.multi_place dataOffset subSize _ localOffset =>
    if localOffset = invalid_address then none else some (dataOffset, subSize)
  | _ => none

/-- The destination range `(writeOffset, length)` of a `copyBuffer` call. -/
def DriverCall.copied : DriverCall → Option (Nat × Nat)
  | DriverCall.copyBuffer _ writeOffset length => some (writeOffset, length)
  | _ => none

/-- The chunks placed by the successful `multi_place` calls of a trace, in call order. -/
def placedChunks (trace : List DriverCall) : List (Nat × Nat) :=
  trace.filterMap DriverCall.placedChunk

/-- The destination ranges of the `copyBuffer` calls of a trace, in call order. -/
def copiedRanges (trace : List DriverCall) : List (Nat × Nat) :=
  trace.filterMap DriverCall.copied

/-- The ranges `(u_k, s_k)` with `u_0 = start` and `u_(k+1) = u_k + s_k` for the lengths
`s_0, s_1, ...`: consecutive ranges without gap or overlap. -/
def tiling (start : Nat) : List Nat → List (Nat × Nat)
  | [] => []
  | s :: rest => (start, s) :: tiling (start + s) rest

/-- The bytes of the upload buffer's mapping and of the destination buffer. -/
structure TransferMemory where
  staging : Ptr
  destination : Ptr

/-- Modelled from the spec: what the calls of the staging loop do to the bytes of the two
buffers; the callees are outside the sources. A successful `multi_place` copies the
payload `data + dataOffset` into the host-visible mapping at the granted offset (spec
4.5); `copyBuffer` is the spec's `copy(src_buffer, dst_buffer, src_offset, dst_offset,
length)` from the upload buffer into the destination buffer (spec 6); the other calls
move no bytes. -/
def applyCall (data : Ptr) (m : TransferMemory) : DriverCall → TransferMemory
  | DriverCall.multi_place dataOffset subSize _ localOffset =>
    if localOffset = invalid_address then m
    else { m with staging := memcpy m.staging localOffset (data.offset dataOffset) subSize }
  | DriverCall.copyBuffer readOffset writeOffset length =>
    { m with
      destination := memcpy m.destination writeOffset (m.staging.offset readOffset) length }
  | _ => m

/-- The bytes of the two buffers after the calls of a trace, in call order. -/
def applyCalls (data : Ptr) (m : TransferMemory) (trace : List DriverCall) : TransferMemory :=
  trace.foldl (applyCall data) m

/-! ### `CommandLineHandler` (examples_tests/39.DenoiserTonemapper) -/

/-- The loop of the lambda `getSerializedValues` over the characters not yet read, with
the index `x` of the next character, `size = variablesStream.size()`, and the current
`variablesHandle` and `tmpStream`. A `std::string` is the list of its characters. -/
def getSerializedValuesLoop (onlyEntireArgvArgument : Bool) (size : Nat) :
    List Char → Nat → List (List Char) → List Char → List (List Char)
  | [], _, variablesHandle, _ => variablesHandle
  | character :: rest, x, variablesHandle, tmpStream =>
    if (if onlyEntireArgvArgument then character = ' ' else character = ',') then
      getSerializedValuesLoop onlyEntireArgvArgument size rest (x + 1)
        (variablesHandle ++ [tmpStream]) []
    else if x = size - 1 then
      getSerializedValuesLoop onlyEntireArgvArgument size rest (x + 1)
        (variablesHandle ++ [tmpStream ++ [character]]) []
    else if character = '\r' ∨ character = '\n' then
      variablesHandle ++ [tmpStream]
    else
      getSerializedValuesLoop onlyEntireArgvArgument size rest (x + 1) variablesHandle
        (tmpStream ++ [character])

/-- The call `std::vector::reserve`: it changes the capacity of the vector only, not its
elements. -/
def vectorReserve {β : Type} (v : List β) (capacity : Nat) : List β :=
  Function.const Nat v capacity

/-- The lambda `getSerializedValues(variablesStream, supposedArgumentsAmout,
onlyEntireArgvArgument)` of the constructor of `CommandLineHandler`. -/
def getSerializedValues (variablesStream : List Char) (supposedArgumentsAmout : Nat)
    (onlyEntireArgvArgument : Bool) : List (List Char) :=
  getSerializedValuesLoop onlyEntireArgvArgument variablesStream.length variablesStream 0
    (vectorReserve [] supposedArgumentsAmout) []

/-- The separator `getSerializedValues` splits on. -/
def separatorOf (onlyEntireArgvArgument : Bool) : Char :=
  if onlyEntireArgvArgument then ' ' else ','

/-- The enumerators of `DENOISER_TONEMAPPER_EXAMPLE_ARGUMENTS` that CommandLineHandler.cpp
names (without their prefix `DTEA_`); the enum is declared in CommandLineHandler.hpp, which
is not among the sources. -/
inductive DTEA where
  | COLOR_FILE
  | CAMERA_TRANSFORM
  | MEDIAN_FILTER_RADIUS
  | DENOISER_EXPOSURE_BIAS
  | DENOISER_BLEND_FACTOR
  | BLOOM_FOV
  | REINHARD
  | ACES
  | OUTPUT
  | ALBEDO_FILE
  | NORMAL_FILE
  | COLOR_CHANNEL_NAME
  | ALBEDO_CHANNEL_NAME
  | NORMAL_CHANNEL_NAME
  | BLOOM_PSF_FILE
  | COUNT
  deriving DecidableEq, Repr

/-- The type `variablesType`, a map from arguments to optional lists of strings. The outer
`Option` tells whether the key is in the map (`at` throws `std::out_of_range` when it is
not), the inner one is the `std::optional` stored under the key. -/
abbrev variablesType : Type := DTEA → Option (Option (List (List Char)))

/-- The messages `validateMandatoryParameters` logs. -/
inductive ValidationMessage where
  | mandatoryMissing
  | onlyOneTonemapper
  | reinhardArguments
  | acesArguments
  | noTonemapper
  deriving DecidableEq, Repr

/-- What a call of `validateMandatoryParameters` that returns leaves behind, assertions
compiled out: the returned `bool`, whether the member `status` was assigned `false`, and
the messages logged. -/
structure ValidationOutcome where
  returned : Bool
  statusCleared : Bool
  log : List ValidationMessage
  deriving DecidableEq, Repr

/-- The list `mandatoryArgumentsOrdinary`. -/
def mandatoryArgumentsOrdinary : List DTEA :=
  [DTEA.COLOR_FILE, DTEA.CAMERA_TRANSFORM, DTEA.MEDIAN_FILTER_RADIUS,
    DTEA.DENOISER_EXPOSURE_BIAS, DTEA.DENOISER_BLEND_FACTOR, DTEA.BLOOM_FOV, DTEA.OUTPUT]

/-- The lambda `validateTonemapper`; `none` when `at` throws. Each `log(status = false, ...)`
assigns the member `status` and logs; the lambda returns `true` in every case. -/
def validateTonemapper (rawVariablesPerFile : variablesType) : Option ValidationOutcome :=
  match rawVariablesPerFile DTEA.REINHARD, rawVariablesPerFile DTEA.ACES with
  | some reinhard, some aces =>
    let reinhardFound := reinhard.isSome
    let acesFound := aces.isSome
    let log1 :=
      if reinhardFound && acesFound then [ValidationMessage.onlyOneTonemapper] else []
    let log2 :=
      if reinhardFound then
        if (reinhard.getD []).length < 2 then [ValidationMessage.reinhardArguments] else []
      else if acesFound then
        if (aces.getD []).length < 2 then [ValidationMessage.acesArguments] else []
      else [ValidationMessage.noTonemapper]
    some { returned := true, statusCleared := !(log1 ++ log2).isEmpty, log := log1 ++ log2 }
  | _, _ => none

/-- The `for` loop of `validateMandatoryParameters` over the mandatory arguments still to
check, followed by `return validateTonemapper()`; `none` when `at` throws. -/
def validateMandatoryLoop (rawVariablesPerFile : variablesType) :
    List DTEA → Option ValidationOutcome
  | [] => validateTonemapper rawVariablesPerFile
  | mandatory :: rest =>
    match rawVariablesPerFile mandatory with
    | none => none
    | some value =>
      if value.isSome then validateMandatoryLoop rawVariablesPerFile rest
      else some { returned := false, statusCleared := false,
                  log := [ValidationMessage.mandatoryMissing] }

/-- The method `CommandLineHandler::validateMandatoryParameters`, assertions compiled out. -/
def validateMandatoryParameters (rawVariablesPerFile : variablesType) :
    Option ValidationOutcome :=
  validateMandatoryLoop rawVariablesPerFile mandatoryArgumentsOrdinary

/-- A map holding every key: the arguments color file, camera transform, median filter
radius, denoiser exposure bias, denoiser blend factor, bloom FoV and output have the
one-string value `value`, except the argument `missing`, which has no value; the entries of
the two tonemappers are as given, the other entries are empty. -/
def exampleVariables (value : List Char) (reinhard aces : Option (List (List Char)))
    (missing : Option DTEA) : variablesType := fun a =>
  if a = DTEA.REINHARD then some reinhard
  else if a = DTEA.ACES then some aces
  else if some a = missing then some none
  else if a = DTEA.COLOR_FILE ∨ a = DTEA.CAMERA_TRANSFORM ∨ a = DTEA.MEDIAN_FILTER_RADIUS ∨
      a = DTEA.DENOISER_EXPOSURE_BIAS ∨ a = DTEA.DENOISER_BLEND_FACTOR ∨
      a = DTEA.BLOOM_FOV ∨ a = DTEA.OUTPUT then some (some [value])
  else some none

/-! ### `StreamingTransientDataBufferMT` and calls of several producers -/

/-- The alias `template<...> using StreamingTransientDataBufferMT =
StreamingTransientDataBufferST<_size_type,CPUAllocator>`: the same class, hence the same
state (no lock among its members) and the same methods. -/
abbrev StreamingTransientDataBufferMT (σ : Type) : Type := StreamingTransientDataBufferST σ

/-- A call of a mutating method in progress on one producer thread, at a point between
two of its calls on the allocator or the deferred-free handler: `multi_alloc` before its
first attempt, before a wait, before a further attempt; `multi_free` before its one call;
a call that has returned; and a call whose behaviour is undefined. The methods take no
lock, so a thread may be preempted at each of these points. -/
inductive CallInProgress (α : Type) where
  | multi_alloc_entry (clock : List Nat) (count : Nat) (outAddresses bytes : Ptr) (args : α)
  | multi_alloc_wait (maxWaitPoint : Nat) (clock : List Nat) (count : Nat)
      (outAddresses bytes : Ptr) (args : α) (unallocatedSize : Nat)
  | multi_alloc_retry (maxWaitPoint : Nat) (clock : List Nat) (count : Nat)
      (outAddresses bytes : Ptr) (args : α)
  | multi_free_entry (count : Nat) (addr bytes : Ptr) (fence : Option Nat)
  | returned (outAddresses : Ptr) (value : Nat)
  | undefined

/-- The next step of a call in progress on the buffer state `st`: the statements of
`multi_alloc` (of `multi_free`) up to and including its next call on a collaborator. A
call that has returned does nothing; `multi_free` returns no value, recorded as 0 with the
caller's `addr` array untouched. -/
def callStep {σ α : Type} (A : AddressAllocator σ α) (signalled : Nat → Bool)
    (st : StreamingTransientDataBufferMT σ) :
    CallInProgress α → StreamingTransientDataBufferMT σ × CallInProgress α
  | CallInProgress.multi_alloc_entry clock count outAddresses bytes args =>
    let r := try_multi_alloc A st count outAddresses bytes args
    if r.2.2 = 0 then (r.1, CallInProgress.returned r.2.1 0)
    else
      (r.1, CallInProgress.multi_alloc_wait (clock.headD 0 + 50000) clock.tail count r.2.1
        bytes args r.2.2)
  | CallInProgress.multi_alloc_wait maxWaitPoint clock count outAddresses bytes args
      unallocatedSize =>
    (waitUntilForReadyEvents A signalled st maxWaitPoint unallocatedSize,
      CallInProgress.multi_alloc_retry maxWaitPoint clock count outAddresses bytes args)
  | CallInProgress.multi_alloc_retry maxWaitPoint clock count outAddresses bytes args =>
    let r := try_multi_alloc A st count outAddresses bytes args
    if r.2.2 = 0 then (r.1, CallInProgress.returned r.2.1 0)
    else
      match clock with
      | [] => (r.1, CallInProgress.returned r.2.1 r.2.2)
      | now :: later =>
        if now < maxWaitPoint then
          (r.1, CallInProgress.multi_alloc_wait maxWaitPoint later count r.2.1 bytes args r.2.2)
        else (r.1, CallInProgress.returned r.2.1 r.2.2)
  | CallInProgress.multi_free_entry count addr bytes fence =>
    match multi_free A st count addr bytes fence with
    | some st1 => (st1, CallInProgress.returned addr 0)
    | none => (st, CallInProgress.undefined)
  | CallInProgress.returned outAddresses value =>
    (st, CallInProgress.returned outAddresses value)
  | CallInProgress.undefined => (st, CallInProgress.undefined)

/-- A call run for `n` steps with no other call in between. -/
def runCall {σ α : Type} (A : AddressAllocator σ α) (signalled : Nat → Bool) :
    Nat → StreamingTransientDataBufferMT σ × CallInProgress α →
      StreamingTransientDataBufferMT σ × CallInProgress α
  | 0, x => x
  | n + 1, x => runCall A signalled n (callStep A signalled x.1 x.2)

/-- Where a call in progress stands: 0 before its first step, 1 between two of its steps,
2 once it has returned, 3 when its behaviour is undefined. -/
def CallInProgress.phase {α : Type} : CallInProgress α → Nat
  | CallInProgress.multi_alloc_entry _ _ _ _ _ => 0
  | CallInProgress.multi_free_entry _ _ _ _ => 0
  | CallInProgress.multi_alloc_wait _ _ _ _ _ _ _ => 1
  | CallInProgress.multi_alloc_retry _ _ _ _ _ _ => 1
  | CallInProgress.returned _ _ => 2
  | CallInProgress.undefined => 3

/-- The value a call has returned, if it has. -/
def CallInProgress.returnValue {α : Type} : CallInProgress α → Option Nat
  | CallInProgress.returned _ value => some value
  | _ => none

/-- One buffer shared by two producer threads, each inside one call. -/
structure TwoProducers (σ α : Type) where
  buffer : StreamingTransientDataBufferMT σ
  first : CallInProgress α
  second : CallInProgress α

/-- The producer chosen by the scheduler (`false` the first, `true` the second) takes its
next step. Nothing in the buffer state can refuse the step: there is no lock to hold. -/
def scheduleStep {σ α : Type} (A : AddressAllocator σ α) (signalled : Nat → Bool)
    (sys : TwoProducers σ α) (who : Bool) : TwoProducers σ α :=
  if who then
    { sys with
      buffer := (callStep A signalled sys.buffer sys.second).1
      second := (callStep A signalled sys.buffer sys.second).2 }
  else
    { sys with
      buffer := (callStep A signalled sys.buffer sys.first).1
      first := (callStep A signalled sys.buffer sys.first).2 }

/-- The two producers run under a schedule, the list of the threads chosen in turn. -/
def runSchedule {σ α : Type} (A : AddressAllocator σ α) (signalled : Nat → Bool)
    (schedule : List Bool) (sys : TwoProducers σ α) : TwoProducers σ α :=
  schedule.foldl (scheduleStep A signalled) sys

/-- Two producers on a buffer with 60 free bytes at offset 600: the first calls
`multi_alloc` for 90 bytes, the second frees the range (0, 100) without a fence. -/
def exampleProducers : TwoProducers (List (Nat × Nat)) Unit :=
  { buffer := exampleBuffer [(600, 60)] []
    first := CallInProgress.multi_alloc_entry [0, 50000] 1 allInvalid (fun _ => 90) ()
    second := CallInProgress.multi_free_entry 1 (fun _ => 0) (fun _ => 100) none }

/-! ## Theorems -/

/-! ### Helper lemmas -/

theorem memcpy_inside (dst src : Ptr) (off n p : Nat) (h1 : off ≤ p) (h2 : p < off + n) :
    memcpy dst off src n p = src (p - off) := by
  simp [memcpy, h1, h2]

theorem memcpy_outside (dst src : Ptr) (off n p : Nat) (h : ¬ (off ≤ p ∧ p < off + n)) :
    memcpy dst off src n p = dst p := by
  simp only [memcpy]
  rw [if_neg h]

theorem construct_numAllocs (n : Nat) (addrs bytes : Ptr) :
    (DeferredFreeFunctor.construct n addrs bytes).numAllocs = n := rfl

theorem construct_addr (n : Nat) (addrs bytes : Ptr) (i : Nat) (h : i < n) :
    (DeferredFreeFunctor.construct n addrs bytes).rangeData i = addrs i := by
  simp only [DeferredFreeFunctor.construct]
  rw [memcpy_outside _ _ _ _ _ (by omega), memcpy_inside _ _ _ _ _ (by omega) (by omega)]
  simp

theorem construct_size (n : Nat) (addrs bytes : Ptr) (i : Nat) (h : i < n) :
    (DeferredFreeFunctor.construct n addrs bytes).rangeData (n + i) = bytes i := by
  simp only [DeferredFreeFunctor.construct]
  rw [memcpy_inside _ _ _ _ _ (by omega) (by omega)]
  simp

theorem rangesOf_congr (n : Nat) (a b c d : Ptr) (h : ∀ i, i < n → a i = c i ∧ b i = d i) :
    rangesOf n a b = rangesOf n c d := by
  simp only [rangesOf]
  apply List.map_congr_left
  intro i hi
  have := h i (List.mem_range.mp hi)
  rw [this.1, this.2]

theorem construct_ranges (n : Nat) (addrs bytes : Ptr) :
    (DeferredFreeFunctor.construct n addrs bytes).ranges = rangesOf n addrs bytes := by
  simp only [DeferredFreeFunctor.ranges, construct_numAllocs]
  apply rangesOf_congr
  intro i hi
  exact ⟨construct_addr n addrs bytes i hi, by
    simp only [Ptr.offset]
    exact construct_size n addrs bytes i hi⟩

/-- C2, failing input: `multi_free` with a non-null fence. The functor built from
`(count, addr, bytes)` is a temporary handed to `addEvent`; its class has no copy
constructor, and its move constructor runs the move assignment, which ends without a
`return`. So for every buffer state, every count, every pair of arrays and every fence the
call has no defined result, and no record is known to be queued; had the move constructor
returned, the call would have appended the one record of the fence and the functor. The
statements of the move assignment do take over the functor (and leave the source with no
ranges): what is missing is the `return`. Without a fence the call is defined: the
allocator's `multi_free_addr` is called with exactly `(count, addr, bytes)` and the
deferred-free queue is unchanged; the trace shows that single call. -/
theorem multi_free_with_fence_undefined {σ α : Type} (A : AddressAllocator σ α)
    (st : StreamingTransientDataBufferST σ) (count : Nat) (addr bytes : Ptr) :
    (∀ f : Nat, multi_free A st count addr bytes (some f) = none) ∧
    (∀ f : Nat,
      multi_free A st count addr bytes (some f)
        = (DeferredFreeFunctor.move_construct
            (DeferredFreeFunctor.construct count addr bytes)).map
              (fun moved => enqueue st f moved.1) ∧
      enqueue st f (DeferredFreeFunctor.construct count addr bytes)
        = { mAllocator := st.mAllocator,
            deferredFrees :=
              st.deferredFrees ++ [(f, DeferredFreeFunctor.construct count addr bytes)],
            bufferPointer := st.bufferPointer,
            trace := st.trace ++ [Event.addEvent f (rangesOf count addr bytes)] }) ∧
    (∀ target functor : DeferredFreeFunctor,
      (DeferredFreeFunctor.operator_assign_body target functor).1 = functor ∧
      (DeferredFreeFunctor.operator_assign_body target functor).2.numAllocs = 0 ∧
      DeferredFreeFunctor.operator_assign target functor = none ∧
      DeferredFreeFunctor.move_construct functor = none) ∧
    multi_free A st count addr bytes none
      = some { mAllocator := A.multi_free_addr st.mAllocator count addr bytes,
               deferredFrees := st.deferredFrees,
               bufferPointer := st.bufferPointer,
               trace := st.trace ++ [Event.free (rangesOf count addr bytes)] } :=
  ⟨fun _ => rfl, fun _ => ⟨rfl, by simp only [enqueue, construct_ranges]⟩,
    fun _ _ => ⟨rfl, rfl, rfl, rfl⟩, rfl⟩

theorem object_construct_cells (mem : Ptr) (block n addrs bytes : Nat)
    (hfresh : (block + 2 * n ≤ addrs ∨ addrs + n ≤ block) ∧
      (block + 2 * n ≤ bytes ∨ bytes + n ≤ block))
    (i : Nat) (hi : i < n) :
    (DeferredFreeFunctorObject.construct mem block n addrs bytes).1 (block + i)
        = mem (addrs + i) ∧
      (DeferredFreeFunctorObject.construct mem block n addrs bytes).1 (block + n + i)
        = mem (bytes + i) := by
  simp only [DeferredFreeFunctorObject.construct]
  constructor
  · rw [memcpy_outside _ _ _ _ _ (by omega), memcpy_inside _ _ _ _ _ (by omega) (by omega)]
    simp [Ptr.offset]
  · rw [memcpy_inside _ _ _ _ _ (by omega) (by omega)]
    simp only [Ptr.offset]
    rw [memcpy_outside _ _ _ _ _ (by omega)]
    congr 1
    omega

/-- The functor read back right after the constructor has run in host memory holds the
ranges of the functor built from the contents of the caller's arrays. -/
theorem object_construct_ranges (mem : Ptr) (block n addrs bytes : Nat)
    (hfresh : (block + 2 * n ≤ addrs ∨ addrs + n ≤ block) ∧
      (block + 2 * n ≤ bytes ∨ bytes + n ≤ block)) :
    ((DeferredFreeFunctorObject.construct mem block n addrs bytes).2.load
        (DeferredFreeFunctorObject.construct mem block n addrs bytes).1).ranges
      = (DeferredFreeFunctor.construct n (mem.offset addrs) (mem.offset bytes)).ranges := by
  rw [construct_ranges]
  simp only [DeferredFreeFunctor.ranges, DeferredFreeFunctorObject.load]
  apply rangesOf_congr
  intro i hi
  have h := object_construct_cells mem block n addrs bytes hfresh i hi
  simp only [Ptr.offset, DeferredFreeFunctorObject.construct] at h ⊢
  exact ⟨h.1, by rw [← Nat.add_assoc]; exact h.2⟩

/-- C8: a deferred free snapshots its ranges, as long as the functor stays where it was
built. The constructor is run in a host memory `mem` holding the caller's arrays at `addrs`
and `bytes`, with fresh storage at `block` (storage that does not overlap the two arrays).
Whatever host memory has become later, provided the functor's own `2*n` cells are as the
constructor left them (so after any change to the caller's arrays), executing the functor
calls the allocator's `multi_free_addr` with `n` and pointers to the two halves of its own
storage, whose cells are the `n` addresses and the `n` sizes as they were at registration,
address `i` paired with size `i`. But the functor handed to `addEvent` cannot be taken into
the queue: for every buffer state and fence that call has no defined result, so for a
functor registered through `multi_free` there is no later execution to speak of. -/
theorem deferred_free_snapshot {σ α : Type} (A : AddressAllocator σ α) (s : σ) (mem : Ptr)
    (block n addrs bytes : Nat)
    (hfresh : (block + 2 * n ≤ addrs ∨ addrs + n ≤ block) ∧
      (block + 2 * n ≤ bytes ∨ bytes + n ≤ block)) :
    (∀ later : Ptr,
      (∀ p, block ≤ p → p < block + 2 * n →
        later p = (DeferredFreeFunctorObject.construct mem block n addrs bytes).1 p) →
      (DeferredFreeFunctorObject.construct mem block n addrs bytes).2.operator_call A later s
          = A.multi_free_addr s n (later.offset block) ((later.offset block).offset n) ∧
        (∀ i, i < n →
          (later.offset block) i = mem (addrs + i) ∧
          ((later.offset block).offset n) i = mem (bytes + i)) ∧
        ((DeferredFreeFunctorObject.construct mem block n addrs bytes).2.load later).ranges
          = rangesOf n (mem.offset addrs) (mem.offset bytes)) ∧
    (∀ (st : StreamingTransientDataBufferST σ) (fence : Nat) (later : Ptr),
      addEvent st fence
        ((DeferredFreeFunctorObject.construct mem block n addrs bytes).2.load later)
        = none) := by
  refine ⟨fun later hlater => ?_, fun _ _ _ => rfl⟩
  have hcells : ∀ i, i < n →
      (later.offset block) i = mem (addrs + i) ∧
      ((later.offset block).offset n) i = mem (bytes + i) := by
    intro i hi
    have h := object_construct_cells mem block n addrs bytes hfresh i hi
    simp only [Ptr.offset]
    rw [hlater (block + i) (by omega) (by omega),
      hlater (block + (n + i)) (by omega) (by omega), ← Nat.add_assoc]
    exact h
  refine ⟨rfl, hcells, ?_⟩
  simp only [DeferredFreeFunctor.ranges, DeferredFreeFunctorObject.load,
    DeferredFreeFunctorObject.construct]
  apply rangesOf_congr
  intro i hi
  exact hcells i hi

/-- C8, witness: the caller keeps the range (64, 100) in cells 0 and 1 and the functor gets
the cells 10 and 11. After the caller has overwritten its cells with 7, executing the
functor still returns the range (64, 100) to the free list; queuing the functor under the
fence 1 has no defined result. -/
theorem deferred_free_snapshot_witness :
    ((10 + 2 * 1 ≤ 0 ∨ 0 + 1 ≤ 10) ∧ (10 + 2 * 1 ≤ 1 ∨ 1 + 1 ≤ 10)) ∧
    ((DeferredFreeFunctorObject.construct exampleHostMemory 10 1 0 1).2.load
        (overwriteCallerArrays
          (DeferredFreeFunctorObject.construct exampleHostMemory 10 1 0 1).1)).ranges
      = [(64, 100)] ∧
    (DeferredFreeFunctorObject.construct exampleHostMemory 10 1 0 1).2.operator_call
        (freeListAllocator Unit)
        (overwriteCallerArrays
          (DeferredFreeFunctorObject.construct exampleHostMemory 10 1 0 1).1) []
      = [(64, 100)] ∧
    addEvent (exampleBuffer [] []) 1
        ((DeferredFreeFunctorObject.construct exampleHostMemory 10 1 0 1).2.load
          (overwriteCallerArrays
            (DeferredFreeFunctorObject.construct exampleHostMemory 10 1 0 1).1))
      = none :=
  ⟨by decide,
    ((deferred_free_snapshot (freeListAllocator Unit) [] exampleHostMemory 10 1 0 1
      (by decide)).1 _ (fun p h1 h2 => by
        have hp : ¬ p < 2 := by omega
        simp only [overwriteCallerArrays, hp, if_false])).2.2.trans (by decide),
    by decide,
    (deferred_free_snapshot (freeListAllocator Unit) [] exampleHostMemory 10 1 0 1
      (by decide)).2 _ _ _⟩

/-- C1, failing input: on a buffer with 60 bytes free, the range (0, 100) is released
through `multi_free` under the fence 1. The release has no defined result, so there is no
state in which the range is held back under its fence, and no later `multi_alloc` has a
result that is defined, whether or not the fence signals. Released without a fence, the
same range is handed to the allocator at once and a request of 90 bytes is then met. -/
theorem deferred_free_release_undefined :
    multi_free (freeListAllocator Unit) (exampleBuffer [(600, 60)] []) 1 (fun _ => 0)
      (fun _ => 100) (some 1) = none ∧
    (∀ (signalled : Nat → Bool) (clock : List Nat),
      (multi_free (freeListAllocator Unit) (exampleBuffer [(600, 60)] []) 1 (fun _ => 0)
        (fun _ => 100) (some 1)).map
          (fun st => (multi_alloc (freeListAllocator Unit) signalled clock st 1 allInvalid
            (fun _ => 90) ()).2.2) = none) ∧
    (multi_free (freeListAllocator Unit) (exampleBuffer [(600, 60)] []) 1 (fun _ => 0)
      (fun _ => 100) none).map
        (fun st => (multi_alloc (freeListAllocator Unit) allSignalled [0] st 1 allInvalid
          (fun _ => 90) ()).2.2) = some 0 :=
  ⟨rfl, fun _ _ => rfl, by decide⟩

/-- The exact sum of `bytes[i]` over the slots `i < count` holding `invalid_address`. -/
theorem unallocatedLoop_eq_sum (outAddresses bytes : Ptr) (count : Nat) :
    unallocatedLoop outAddresses bytes count
      = (∑ i ∈ Finset.range count,
          if outAddresses i = invalid_address then bytes i else 0) % sizeMod := by
  induction count with
  | zero => simp [unallocatedLoop, sizeMod]
  | succ n ih =>
    have hstep : unallocatedLoop outAddresses bytes (n + 1)
        = if outAddresses n ≠ invalid_address then unallocatedLoop outAddresses bytes n
          else (unallocatedLoop outAddresses bytes n + bytes n) % sizeMod := by
      simp only [unallocatedLoop, List.range_succ, List.foldl_append, List.foldl_cons,
        List.foldl_nil]
    rw [hstep, Finset.sum_range_succ, ih]
    by_cases h : outAddresses n = invalid_address
    · simp [h, Nat.add_mod]
    · simp [h]

theorem try_multi_alloc_ret {σ α : Type} (A : AddressAllocator σ α)
    (st : StreamingTransientDataBufferST σ) (count : Nat) (outAddresses bytes : Ptr)
    (args : α) :
    (try_multi_alloc A st count outAddresses bytes args).2.2
      = unallocatedLoop (try_multi_alloc A st count outAddresses bytes args).2.1 bytes count :=
  rfl

theorem multi_alloc_loop_ret {σ α : Type} (A : AddressAllocator σ α) (signalled : Nat → Bool)
    (count : Nat) (bytes : Ptr) (args : α) (maxWaitPoint : Nat) (clock : List Nat) :
    ∀ (st : StreamingTransientDataBufferST σ) (outAddresses : Ptr) (unallocatedSize : Nat),
    (multi_alloc_loop A signalled count bytes args maxWaitPoint clock st outAddresses
        unallocatedSize).2.2
      = unallocatedLoop
          (multi_alloc_loop A signalled count bytes args maxWaitPoint clock st outAddresses
            unallocatedSize).2.1 bytes count := by
  induction clock with
  | nil =>
    intro st out u
    unfold multi_alloc_loop
    simp only []
    split
    · next h => rw [try_multi_alloc_ret] at h; exact h.symm
    · rfl
  | cons now later ih =>
    intro st out u
    unfold multi_alloc_loop
    simp only []
    split
    · next h => rw [try_multi_alloc_ret] at h; exact h.symm
    · split
      · exact ih _ _ _
      · rfl

theorem multi_alloc_within_ret {σ α : Type} (waitNs : Nat) (A : AddressAllocator σ α)
    (signalled : Nat → Bool) (clock : List Nat) (st : StreamingTransientDataBufferST σ)
    (count : Nat) (outAddresses bytes : Ptr) (args : α) :
    (multi_alloc_within waitNs A signalled clock st count outAddresses bytes args).2.2
      = unallocatedLoop
          (multi_alloc_within waitNs A signalled clock st count outAddresses bytes args).2.1
          bytes count := by
  unfold multi_alloc_within
  simp only []
  split
  · next h => rw [try_multi_alloc_ret] at h; exact h.symm
  · exact multi_alloc_loop_ret _ _ _ _ _ _ _ _ _ _

theorem unmet_zero_of_all_granted (outAddresses bytes : Ptr) (count : Nat)
    (h : ∀ i, i < count → outAddresses i ≠ invalid_address) :
    (∑ i ∈ Finset.range count, if outAddresses i = invalid_address then bytes i else 0) = 0 := by
  apply Finset.sum_eq_zero
  intro i hi
  simp [h i (Finset.mem_range.mp hi)]

theorem exists_invalid_of_unmet_ne_zero (outAddresses bytes : Ptr) (count : Nat)
    (h : unallocatedLoop outAddresses bytes count ≠ 0) :
    ∃ i, i < count ∧ outAddresses i = invalid_address := by
  by_contra hne
  push_neg at hne
  apply h
  rw [unallocatedLoop_eq_sum, unmet_zero_of_all_granted _ _ _ hne]
  simp

theorem multi_alloc_ret {σ α : Type} (A : AddressAllocator σ α)
    (signalled : Nat → Bool) (clock : List Nat) (st : StreamingTransientDataBufferST σ)
    (count : Nat) (outAddresses bytes : Ptr) (args : α) :
    (multi_alloc A signalled clock st count outAddresses bytes args).2.2
      = unallocatedLoop
          (multi_alloc A signalled clock st count outAddresses bytes args).2.1 bytes count :=
  multi_alloc_within_ret 50000 A signalled clock st count outAddresses bytes args

/-- C4 (amended): the value returned by `try_multi_alloc` and by `multi_alloc` is the
unmet-byte count reduced modulo `2 ^ 32`: the sum of `bytes[i]` over exactly those slots
`i < count` whose `outAddresses[i]` equals `invalid_address` after the last allocation
attempt of the call, taken modulo `2 ^ 32`; it is the exact sum whenever that sum is
below `2 ^ 32`. -/
theorem multi_alloc_returns_unmet_mod {σ α : Type} (A : AddressAllocator σ α)
    (signalled : Nat → Bool) (clock : List Nat) (st : StreamingTransientDataBufferST σ)
    (count : Nat) (outAddresses bytes : Ptr) (args : α) :
    (try_multi_alloc A st count outAddresses bytes args).2.2
        = (∑ i ∈ Finset.range count,
            if (try_multi_alloc A st count outAddresses bytes args).2.1 i = invalid_address
            then bytes i else 0) % 2 ^ 32 ∧
    (multi_alloc A signalled clock st count outAddresses bytes args).2.2
        = (∑ i ∈ Finset.range count,
            if (multi_alloc A signalled clock st count outAddresses bytes args).2.1 i
                = invalid_address
            then bytes i else 0) % 2 ^ 32 ∧
    ((∑ i ∈ Finset.range count,
        if (multi_alloc A signalled clock st count outAddresses bytes args).2.1 i
            = invalid_address
        then bytes i else 0) < 2 ^ 32 →
      (multi_alloc A signalled clock st count outAddresses bytes args).2.2
        = ∑ i ∈ Finset.range count,
            if (multi_alloc A signalled clock st count outAddresses bytes args).2.1 i
                = invalid_address
            then bytes i else 0) := by
  have h1 := try_multi_alloc_ret A st count outAddresses bytes args
  have h2 := multi_alloc_ret A signalled clock st count outAddresses bytes args
  rw [unallocatedLoop_eq_sum] at h1 h2
  refine ⟨h1, h2, fun hlt => ?_⟩
  have h3 := h2
  rw [sizeMod, Nat.mod_eq_of_lt hlt] at h3
  exact h3

/-- C5 (amended): on return from `multi_alloc`, a non-zero return value means that at least
one slot holds `invalid_address`, and a fully satisfied batch returns 0. The return value
is 0 exactly when the sizes of the slots holding `invalid_address` sum to a multiple of
`2 ^ 32`; so when every requested size is non-zero and the requested sizes sum to less
than `2 ^ 32`, the return value is 0 exactly when no slot holds `invalid_address`. -/
theorem multi_alloc_zero_iff {σ α : Type} (A : AddressAllocator σ α)
    (signalled : Nat → Bool) (clock : List Nat) (st : StreamingTransientDataBufferST σ)
    (count : Nat) (outAddresses bytes : Ptr) (args : α) :
    ((multi_alloc A signalled clock st count outAddresses bytes args).2.2 ≠ 0 →
      ∃ i, i < count ∧
        (multi_alloc A signalled clock st count outAddresses bytes args).2.1 i
          = invalid_address) ∧
    ((∀ i, i < count →
        (multi_alloc A signalled clock st count outAddresses bytes args).2.1 i
          ≠ invalid_address) →
      (multi_alloc A signalled clock st count outAddresses bytes args).2.2 = 0) ∧
    ((multi_alloc A signalled clock st count outAddresses bytes args).2.2 = 0 ↔
      (∑ i ∈ Finset.range count,
        if (multi_alloc A signalled clock st count outAddresses bytes args).2.1 i
            = invalid_address
        then bytes i else 0) % 2 ^ 32 = 0) ∧
    ((∀ i, i < count → 0 < bytes i) → (∑ i ∈ Finset.range count, bytes i) < 2 ^ 32 →
      ((multi_alloc A signalled clock st count outAddresses bytes args).2.2 = 0 ↔
        ∀ i, i < count →
          (multi_alloc A signalled clock st count outAddresses bytes args).2.1 i
            ≠ invalid_address)) := by
  have h2 := multi_alloc_ret A signalled clock st count outAddresses bytes args
  generalize (multi_alloc A signalled clock st count outAddresses bytes args) = r at h2 ⊢
  have hall : (∀ i, i < count → r.2.1 i ≠ invalid_address) → r.2.2 = 0 := by
    intro h
    rw [h2, unallocatedLoop_eq_sum, unmet_zero_of_all_granted _ _ _ h]
    simp
  refine ⟨fun h => exists_invalid_of_unmet_ne_zero _ _ _ (h2 ▸ h), hall, ?_, ?_⟩
  · rw [h2, unallocatedLoop_eq_sum, sizeMod]
  · intro hpos hsum
    refine ⟨fun h0 i hi hinv => ?_, hall⟩
    rw [h2, unallocatedLoop_eq_sum, sizeMod] at h0
    have hle : (∑ i ∈ Finset.range count, if r.2.1 i = invalid_address then bytes i else 0)
        ≤ ∑ i ∈ Finset.range count, bytes i := by
      apply Finset.sum_le_sum
      intro j _
      split <;> omega
    rw [Nat.mod_eq_of_lt (lt_of_le_of_lt hle hsum)] at h0
    have := (Finset.sum_eq_zero_iff.mp h0) i (Finset.mem_range.mpr hi)
    simp only [hinv, if_true] at this
    have := hpos i hi
    omega

/-- C4, counterexample: two requests of 2 GiB each on a buffer with 1 KiB free both fail,
so the unmet-byte count is `2 ^ 32`, yet `multi_alloc` returns 0. -/
theorem multi_alloc_unmet_wraps :
    ¬ ((multi_alloc (freeListAllocator Unit) noneSignalled [0, 1]
          (exampleBuffer [(0, 1024)] []) 2 allInvalid twoGiB ()).2.2
        = ∑ i ∈ Finset.range 2,
            if (multi_alloc (freeListAllocator Unit) noneSignalled [0, 1]
                (exampleBuffer [(0, 1024)] []) 2 allInvalid twoGiB ()).2.1 i = invalid_address
            then twoGiB i else 0) := by
  decide

/-- C4, witness: requests of 100 and 2000 bytes on a buffer with 1 KiB free. -/
theorem multi_alloc_returns_unmet_mod_witness :
    (∑ i ∈ Finset.range 2,
        if (multi_alloc (freeListAllocator Unit) noneSignalled [0, 1]
            (exampleBuffer [(0, 1024)] []) 2 allInvalid smallSizes ()).2.1 i = invalid_address
        then smallSizes i else 0) < 2 ^ 32 ∧
    (multi_alloc (freeListAllocator Unit) noneSignalled [0, 1]
        (exampleBuffer [(0, 1024)] []) 2 allInvalid smallSizes ()).2.2
      = ∑ i ∈ Finset.range 2,
          if (multi_alloc (freeListAllocator Unit) noneSignalled [0, 1]
              (exampleBuffer [(0, 1024)] []) 2 allInvalid smallSizes ()).2.1 i = invalid_address
          then smallSizes i else 0 :=
  ⟨by decide,
    (multi_alloc_returns_unmet_mod (freeListAllocator Unit) noneSignalled [0, 1]
      (exampleBuffer [(0, 1024)] []) 2 allInvalid smallSizes ()).2.2 (by decide)⟩

/-- C5, counterexample: requests of 3 GiB and 1 GiB on a buffer with 1 KiB free both
fail, yet `multi_alloc` returns 0 although both slots hold `invalid_address`. -/
theorem multi_alloc_zero_with_unmet_slots :
    ¬ ((multi_alloc (freeListAllocator Unit) noneSignalled [0, 1]
          (exampleBuffer [(0, 1024)] []) 2 allInvalid threePlusOneGiB ()).2.2 = 0 ↔
        ∀ i, i < 2 →
          (multi_alloc (freeListAllocator Unit) noneSignalled [0, 1]
            (exampleBuffer [(0, 1024)] []) 2 allInvalid threePlusOneGiB ()).2.1 i
            ≠ invalid_address) := by
  decide

/-- C5, witness: requests of 100 and 2000 bytes on a buffer with 1 KiB free. -/
theorem multi_alloc_zero_iff_witness :
    (∀ i, i < 2 → 0 < smallSizes i) ∧ (∑ i ∈ Finset.range 2, smallSizes i) < 2 ^ 32 ∧
    ((multi_alloc (freeListAllocator Unit) noneSignalled [0, 1]
        (exampleBuffer [(0, 1024)] []) 2 allInvalid smallSizes ()).2.2 = 0 ↔
      ∀ i, i < 2 →
        (multi_alloc (freeListAllocator Unit) noneSignalled [0, 1]
          (exampleBuffer [(0, 1024)] []) 2 allInvalid smallSizes ()).2.1 i
          ≠ invalid_address) :=
  ⟨by decide, by decide,
    (multi_alloc_zero_iff (freeListAllocator Unit) noneSignalled [0, 1]
      (exampleBuffer [(0, 1024)] []) 2 allInvalid smallSizes ()).2.2.2 (by decide) (by decide)⟩

theorem sizeLoop_eq (f : DeferredFreeFunctor) (k : Nat) :
    ∀ i u, f.sizeLoop k i u
      = (u - ((List.range k).map (fun j => f.rangeData (f.numAllocs + (i + j)))).sum,
          decide (u ≤ ((List.range k).map (fun j => f.rangeData (f.numAllocs + (i + j)))).sum)) := by
  induction k with
  | zero =>
    intro i u
    simp only [DeferredFreeFunctor.sizeLoop, List.range_zero, List.map_nil, List.sum_nil,
      Nat.sub_zero, Nat.le_zero_eq]
    refine Prod.ext rfl ?_
    simp only []
    cases u <;> simp
  | succ k ih =>
    intro i u
    have hsum : ((List.range (k + 1)).map (fun j => f.rangeData (f.numAllocs + (i + j)))).sum
        = f.rangeData (f.numAllocs + i)
          + ((List.range k).map (fun j => f.rangeData (f.numAllocs + (i + 1 + j)))).sum := by
      rw [List.range_succ_eq_map, List.map_cons, List.sum_cons, List.map_map]
      congr 2
      apply List.map_congr_left
      intro j _
      simp only [Function.comp, Nat.succ_eq_add_one]
      congr 2
      omega
    rw [hsum]
    simp only [DeferredFreeFunctor.sizeLoop]
    by_cases h : u > f.rangeData (f.numAllocs + i)
    · rw [if_pos h, ih]
      refine Prod.ext ?_ ?_
      · simp only []
        omega
      · simp only [decide_eq_decide]
        omega
    · rw [if_neg h]
      refine Prod.ext ?_ ?_
      · simp only []
        omega
      · simp only []
        symm
        rw [decide_eq_true_iff]
        omega

theorem freedBytes_eq (f : DeferredFreeFunctor) :
    f.freedBytes
      = ((List.range f.numAllocs).map (fun j => f.rangeData (f.numAllocs + (0 + j)))).sum := by
  simp [DeferredFreeFunctor.freedBytes, DeferredFreeFunctor.ranges, rangesOf, Ptr.offset,
    List.map_map, Function.comp_def]

theorem operator_call_size_eq {σ α : Type} (A : AddressAllocator σ α)
    (f : DeferredFreeFunctor) (s : σ) (u : Nat) :
    f.operator_call_size A s u
      = (A.multi_free_addr s f.numAllocs f.rangeData (f.rangeData.offset f.numAllocs),
          u - f.freedBytes, decide (u ≤ f.freedBytes)) := by
  simp only [DeferredFreeFunctor.operator_call_size, DeferredFreeFunctor.operator_call,
    sizeLoop_eq, freedBytes_eq]

theorem execEvents_append (a b : List (Nat × DeferredFreeFunctor)) :
    execEvents (a ++ b) = execEvents a ++ execEvents b := by
  simp [execEvents]

theorem filter_isExec_execEvents (a : List (Nat × DeferredFreeFunctor)) :
    (execEvents a).filter Event.isExec = execEvents a := by
  induction a with
  | nil => rfl
  | cons e rest ih =>
    simp only [execEvents, List.map_cons] at ih ⊢
    rw [List.filter_cons_of_pos (by rfl), ih]

theorem freeAll_append {σ α : Type} (A : AddressAllocator σ α)
    (a b : List (Nat × DeferredFreeFunctor)) (s : σ) :
    freeAll A (a ++ b) s = freeAll A b (freeAll A a s) := by
  simp [freeAll, List.foldl_append]

theorem drainReady_cons_ready {σ α : Type} (A : AddressAllocator σ α)
    (signalled : Nat → Bool) (fence : Nat) (functor : DeferredFreeFunctor)
    (rest : List (Nat × DeferredFreeFunctor)) (s : σ) (u : Nat) (tr : List Event)
    (hs : signalled fence = true) :
    drainReady A signalled ((fence, functor) :: rest) s u tr
      = if u ≤ functor.freedBytes then
          (rest, functor.operator_call A s, u - functor.freedBytes,
            tr ++ [Event.exec fence functor.ranges])
        else
          drainReady A signalled rest (functor.operator_call A s) (u - functor.freedBytes)
            (tr ++ [Event.exec fence functor.ranges]) := by
  simp only [drainReady, hs, if_true, operator_call_size_eq, decide_eq_true_eq,
    DeferredFreeFunctor.operator_call]

theorem drainReady_cons_pending {σ α : Type} (A : AddressAllocator σ α)
    (signalled : Nat → Bool) (fence : Nat) (functor : DeferredFreeFunctor)
    (rest : List (Nat × DeferredFreeFunctor)) (s : σ) (u : Nat) (tr : List Event)
    (hs : ¬ signalled fence = true) :
    drainReady A signalled ((fence, functor) :: rest) s u tr
      = ((fence, functor) :: rest, s, u, tr) := by
  simp only [drainReady, hs, Bool.false_eq_true, if_false]

/-- The walk of `drainReady` removes a prefix of the queue whose fences have all signalled,
executes exactly the functors of that prefix in order and leaves the rest queued. -/
theorem drainReady_spec {σ α : Type} (A : AddressAllocator σ α) (signalled : Nat → Bool)
    (queue : List (Nat × DeferredFreeFunctor)) :
    ∀ (s : σ) (u : Nat) (tr : List Event),
    ∃ done : List (Nat × DeferredFreeFunctor),
      queue = done ++ (drainReady A signalled queue s u tr).1 ∧
      (∀ e, e ∈ done → signalled e.1 = true) ∧
      (drainReady A signalled queue s u tr).2.1 = freeAll A done s ∧
      (drainReady A signalled queue s u tr).2.2.2 = tr ++ execEvents done := by
  induction queue with
  | nil =>
    intro s u tr
    exact ⟨[], by simp [drainReady], by simp, by simp [drainReady, freeAll],
      by simp [drainReady, execEvents]⟩
  | cons e rest ih =>
    intro s u tr
    obtain ⟨fence, functor⟩ := e
    by_cases hs : signalled fence = true
    · rw [drainReady_cons_ready A signalled fence functor rest s u tr hs]
      by_cases hd : u ≤ functor.freedBytes
      · rw [if_pos hd]
        refine ⟨[(fence, functor)], rfl, ?_, rfl, rfl⟩
        intro e he
        simp only [List.mem_singleton] at he
        rw [he]; exact hs
      · rw [if_neg hd]
        obtain ⟨done, h1, h2, h3, h4⟩ := ih (functor.operator_call A s)
          (u - functor.freedBytes) (tr ++ [Event.exec fence functor.ranges])
        refine ⟨(fence, functor) :: done, ?_, ?_, ?_, ?_⟩
        · rw [List.cons_append, ← h1]
        · intro e he
          rcases List.mem_cons.mp he with he | he
          · rw [he]; exact hs
          · exact h2 e he
        · rw [h3]; rfl
        · rw [h4]
          simp [execEvents]
    · rw [drainReady_cons_pending A signalled fence functor rest s u tr hs]
      exact ⟨[], rfl, by simp, rfl, by simp [execEvents]⟩

/-- While the entries walked so far are ready and free fewer bytes than are needed, the
walk executes them and goes on. -/
theorem drainReady_through {σ α : Type} (A : AddressAllocator σ α) (signalled : Nat → Bool)
    (older : List (Nat × DeferredFreeFunctor)) :
    ∀ (queue : List (Nat × DeferredFreeFunctor)) (s : σ) (u : Nat) (tr : List Event),
    (∀ e, e ∈ older → signalled e.1 = true) →
    (older.map (fun e => e.2.freedBytes)).sum < u →
    drainReady A signalled (older ++ queue) s u tr
      = drainReady A signalled queue (freeAll A older s)
          (u - (older.map (fun e => e.2.freedBytes)).sum) (tr ++ execEvents older) := by
  induction older with
  | nil =>
    intro queue s u tr _ _
    simp [freeAll, execEvents]
  | cons e rest ih =>
    intro queue s u tr hsig hlt
    obtain ⟨fence, functor⟩ := e
    have hs : signalled fence = true := hsig (fence, functor) (List.mem_cons_self _ _)
    simp only [List.map_cons, List.sum_cons] at hlt ⊢
    have hnd : ¬ (u ≤ functor.freedBytes) := by omega
    rw [List.cons_append, drainReady_cons_ready A signalled fence functor _ s u tr hs,
      if_neg hnd,
      ih queue _ _ _ (fun e he => hsig e (List.mem_cons_of_mem _ he)) (by omega)]
    simp only [freeAll, List.foldl_cons, execEvents, List.map_cons, List.append_assoc,
      List.singleton_append, Nat.sub_sub]

theorem waitUntilForReadyEvents_spec {σ α : Type} (A : AddressAllocator σ α)
    (signalled : Nat → Bool) (st : StreamingTransientDataBufferST σ) (mwp u : Nat) :
    ∃ done : List (Nat × DeferredFreeFunctor),
      st.deferredFrees = done ++ (waitUntilForReadyEvents A signalled st mwp u).deferredFrees ∧
      (∀ e, e ∈ done → signalled e.1 = true) ∧
      (waitUntilForReadyEvents A signalled st mwp u).mAllocator
        = freeAll A done st.mAllocator ∧
      (waitUntilForReadyEvents A signalled st mwp u).trace
        = st.trace ++ Event.wait mwp u :: execEvents done ∧
      (waitUntilForReadyEvents A signalled st mwp u).bufferPointer = st.bufferPointer := by
  obtain ⟨done, h1, h2, h3, h4⟩ := drainReady_spec A signalled st.deferredFrees st.mAllocator u
    (st.trace ++ [Event.wait mwp u])
  refine ⟨done, h1, h2, h3, ?_, rfl⟩
  simp only [waitUntilForReadyEvents]
  rw [h4]
  simp

/-- One pass through the body of the `do ... while` loop either ends the call with the
result of its allocation attempt or is followed by the loop on the later clock readings. -/
theorem multi_alloc_loop_cases {σ α : Type} (A : AddressAllocator σ α)
    (signalled : Nat → Bool) (count : Nat) (bytes : Ptr) (args : α) (mwp : Nat)
    (clock : List Nat) (st : StreamingTransientDataBufferST σ) (out : Ptr) (u : Nat) :
    ((multi_alloc_loop A signalled count bytes args mwp clock st out u).1
        = (try_multi_alloc A (waitUntilForReadyEvents A signalled st mwp u) count out bytes
            args).1 ∧
      (multi_alloc_loop A signalled count bytes args mwp clock st out u).2.1
        = (try_multi_alloc A (waitUntilForReadyEvents A signalled st mwp u) count out bytes
            args).2.1) ∨
    (∃ now later, clock = now :: later ∧
      multi_alloc_loop A signalled count bytes args mwp clock st out u
        = multi_alloc_loop A signalled count bytes args mwp later
            (try_multi_alloc A (waitUntilForReadyEvents A signalled st mwp u) count out bytes
              args).1
            (try_multi_alloc A (waitUntilForReadyEvents A signalled st mwp u) count out bytes
              args).2.1
            (try_multi_alloc A (waitUntilForReadyEvents A signalled st mwp u) count out bytes
              args).2.2) := by
  cases clock with
  | nil =>
    left
    unfold multi_alloc_loop
    simp only []
    split <;> exact ⟨rfl, rfl⟩
  | cons now later =>
    by_cases h0 : (try_multi_alloc A (waitUntilForReadyEvents A signalled st mwp u) count out
        bytes args).2.2 = 0
    · left
      rw [multi_alloc_loop]
      simp only [h0, if_true, and_self]
    · by_cases hn : now < mwp
      · right
        refine ⟨now, later, rfl, ?_⟩
        rw [multi_alloc_loop]
        simp only [h0, if_false, hn, if_true]
      · left
        rw [multi_alloc_loop]
        simp only [h0, if_false, hn, and_self]

/-- What a run of the `do ... while` loop does to the queue, the trace and the mapped
buffer: it removes a prefix of the queue whose fences have all signalled, its trace starts
with the wait and contains a further allocation attempt, the functors it executes are
exactly those of the removed prefix, and the mapped buffer is untouched. -/
theorem multi_alloc_loop_spec {σ α : Type} (A : AddressAllocator σ α)
    (signalled : Nat → Bool) (count : Nat) (bytes : Ptr) (args : α) (mwp : Nat)
    (clock : List Nat) :
    ∀ (st : StreamingTransientDataBufferST σ) (out : Ptr) (u : Nat),
    ∃ (done : List (Nat × DeferredFreeFunctor)) (ev : List Event),
      st.deferredFrees
        = done ++ (multi_alloc_loop A signalled count bytes args mwp clock st out u).1.deferredFrees ∧
      (∀ e, e ∈ done → signalled e.1 = true) ∧
      (multi_alloc_loop A signalled count bytes args mwp clock st out u).1.trace
        = st.trace ++ Event.wait mwp u :: ev ∧
      ev.filter Event.isExec = execEvents done ∧
      Event.alloc ((List.range count).map bytes) ∈ ev ∧
      (multi_alloc_loop A signalled count bytes args mwp clock st out u).1.bufferPointer
        = st.bufferPointer := by
  induction clock with
  | nil =>
    intro st out u
    obtain ⟨done, h1, h2, _, h4, h5⟩ := waitUntilForReadyEvents_spec A signalled st mwp u
    rcases multi_alloc_loop_cases A signalled count bytes args mwp [] st out u with h | h
    · refine ⟨done, execEvents done ++ [Event.alloc ((List.range count).map bytes)], ?_, h2,
        ?_, ?_, by simp, ?_⟩
      · rw [h.1]; exact h1
      · rw [h.1]
        simp only [try_multi_alloc]
        rw [h4]; simp
      · rw [List.filter_append, filter_isExec_execEvents]
        simp [Event.isExec]
      · rw [h.1]; exact h5
    · obtain ⟨now, later, hc, _⟩ := h
      cases hc
  | cons now later ih =>
    intro st out u
    obtain ⟨done, h1, h2, _, h4, h5⟩ := waitUntilForReadyEvents_spec A signalled st mwp u
    rcases multi_alloc_loop_cases A signalled count bytes args mwp (now :: later) st out u
      with h | h
    · refine ⟨done, execEvents done ++ [Event.alloc ((List.range count).map bytes)], ?_, h2,
        ?_, ?_, by simp, ?_⟩
      · rw [h.1]; exact h1
      · rw [h.1]
        simp only [try_multi_alloc]
        rw [h4]; simp
      · rw [List.filter_append, filter_isExec_execEvents]
        simp [Event.isExec]
      · rw [h.1]; exact h5
    · obtain ⟨now1, later1, hc, hrec⟩ := h
      cases hc
      rw [hrec]
      obtain ⟨done2, ev2, g1, g2, g3, g4, _, g6⟩ := ih
        (try_multi_alloc A (waitUntilForReadyEvents A signalled st mwp u) count out bytes args).1
        (try_multi_alloc A (waitUntilForReadyEvents A signalled st mwp u) count out bytes
          args).2.1
        (try_multi_alloc A (waitUntilForReadyEvents A signalled st mwp u) count out bytes
          args).2.2
      refine ⟨done ++ done2,
        execEvents done ++ Event.alloc ((List.range count).map bytes)
          :: Event.wait mwp (try_multi_alloc A (waitUntilForReadyEvents A signalled st mwp u)
              count out bytes args).2.2 :: ev2, ?_, ?_, ?_, ?_, by simp, ?_⟩
      · rw [List.append_assoc, ← g1]; exact h1
      · intro e he
        rcases List.mem_append.mp he with he | he
        · exact h2 e he
        · exact g2 e he
      · rw [g3]
        simp only [try_multi_alloc]
        rw [h4]; simp
      · rw [List.filter_append, filter_isExec_execEvents, execEvents_append]
        simp only [List.filter_cons, Event.isExec, Bool.false_eq_true, if_false]
        rw [g4]
      · rw [g6]; exact h5

theorem multi_alloc_within_of_zero {σ α : Type} (waitNs : Nat) (A : AddressAllocator σ α)
    (signalled : Nat → Bool) (clock : List Nat) (st : StreamingTransientDataBufferST σ)
    (count : Nat) (out bytes : Ptr) (args : α)
    (h : (try_multi_alloc A st count out bytes args).2.2 = 0) :
    multi_alloc_within waitNs A signalled clock st count out bytes args
      = ((try_multi_alloc A st count out bytes args).1,
          (try_multi_alloc A st count out bytes args).2.1, 0) := by
  simp only [multi_alloc_within, h, if_true]

theorem multi_alloc_within_of_ne_zero {σ α : Type} (waitNs : Nat) (A : AddressAllocator σ α)
    (signalled : Nat → Bool) (clock : List Nat) (st : StreamingTransientDataBufferST σ)
    (count : Nat) (out bytes : Ptr) (args : α)
    (h : (try_multi_alloc A st count out bytes args).2.2 ≠ 0) :
    multi_alloc_within waitNs A signalled clock st count out bytes args
      = multi_alloc_loop A signalled count bytes args (clock.headD 0 + waitNs) clock.tail
          (try_multi_alloc A st count out bytes args).1
          (try_multi_alloc A st count out bytes args).2.1
          (try_multi_alloc A st count out bytes args).2.2 := by
  simp only [multi_alloc_within, h, if_false]

/-- What a call of `multi_alloc` does to the queue, the trace and the mapped buffer: a
prefix of the queue whose fences have all signalled is removed, the functors executed are
exactly those of that prefix, and the mapped buffer is untouched. -/
theorem multi_alloc_within_spec {σ α : Type} (waitNs : Nat) (A : AddressAllocator σ α)
    (signalled : Nat → Bool) (clock : List Nat) (st : StreamingTransientDataBufferST σ)
    (count : Nat) (out bytes : Ptr) (args : α) :
    ∃ (done : List (Nat × DeferredFreeFunctor)) (ev : List Event),
      st.deferredFrees
        = done ++ (multi_alloc_within waitNs A signalled clock st count out bytes
            args).1.deferredFrees ∧
      (∀ e, e ∈ done → signalled e.1 = true) ∧
      (multi_alloc_within waitNs A signalled clock st count out bytes args).1.trace
        = st.trace ++ ev ∧
      ev.filter Event.isExec = execEvents done ∧
      (multi_alloc_within waitNs A signalled clock st count out bytes args).1.bufferPointer
        = st.bufferPointer := by
  by_cases h : (try_multi_alloc A st count out bytes args).2.2 = 0
  · rw [multi_alloc_within_of_zero waitNs A signalled clock st count out bytes args h]
    exact ⟨[], [Event.alloc ((List.range count).map bytes)], rfl, by simp, rfl, rfl, rfl⟩
  · rw [multi_alloc_within_of_ne_zero waitNs A signalled clock st count out bytes args h]
    obtain ⟨done, ev, h1, h2, h3, h4, _, h6⟩ := multi_alloc_loop_spec A signalled count bytes
      args (clock.headD 0 + waitNs) clock.tail (try_multi_alloc A st count out bytes args).1
      (try_multi_alloc A st count out bytes args).2.1
      (try_multi_alloc A st count out bytes args).2.2
    refine ⟨done, Event.alloc ((List.range count).map bytes)
      :: Event.wait (clock.headD 0 + waitNs) (try_multi_alloc A st count out bytes args).2.2
      :: ev, h1, h2, ?_, ?_, h6⟩
    · rw [h3]
      simp [try_multi_alloc]
    · simp only [List.filter_cons, Event.isExec, Bool.false_eq_true, if_false]
      exact h4

theorem placeLoop_succ (dataToPlace : Nat → Ptr) (out bytes : Ptr) (n : Nat) (buffer : Ptr) :
    placeLoop dataToPlace out bytes (n + 1) buffer
      = if out n ≠ invalid_address then
          memcpy (placeLoop dataToPlace out bytes n buffer) (out n) (dataToPlace n) (bytes n)
        else placeLoop dataToPlace out bytes n buffer := by
  simp only [placeLoop, List.range_succ, List.foldl_append, List.foldl_cons, List.foldl_nil]

/-- A byte outside every granted range keeps its value through the fill loop. -/
theorem placeLoop_unchanged (dataToPlace : Nat → Ptr) (out bytes : Ptr) (buffer : Ptr)
    (p : Nat) (n : Nat) :
    (∀ i, i < n → out i ≠ invalid_address → ¬ (out i ≤ p ∧ p < out i + bytes i)) →
    placeLoop dataToPlace out bytes n buffer p = buffer p := by
  induction n with
  | zero => intro _; rfl
  | succ n ih =>
    intro h
    rw [placeLoop_succ]
    have hrec := ih (fun i hi => h i (by omega))
    by_cases hv : out n ≠ invalid_address
    · rw [if_pos hv, memcpy_outside _ _ _ _ _ (h n (by omega) hv)]
      exact hrec
    · rw [if_neg hv]
      exact hrec

/-- A byte of a granted range that no later slot covers holds the payload of its slot
after the fill loop. -/
theorem placeLoop_written (dataToPlace : Nat → Ptr) (out bytes : Ptr) (buffer : Ptr)
    (p i : Nat) (hv : out i ≠ invalid_address) (h1 : out i ≤ p) (h2 : p < out i + bytes i)
    (n : Nat) :
    i < n →
    (∀ j, i < j → j < n → out j ≠ invalid_address → ¬ (out j ≤ p ∧ p < out j + bytes j)) →
    placeLoop dataToPlace out bytes n buffer p = dataToPlace i (p - out i) := by
  induction n with
  | zero => intro h; omega
  | succ n ih =>
    intro hi hlater
    rw [placeLoop_succ]
    by_cases hin : i = n
    · subst hin
      rw [if_pos hv, memcpy_inside _ _ _ _ _ h1 h2]
    · have hrec := ih (by omega) (fun j hj hjn => hlater j hj (by omega))
      by_cases hvn : out n ≠ invalid_address
      · rw [if_pos hvn, memcpy_outside _ _ _ _ _ (hlater n (by omega) (by omega) hvn)]
        exact hrec
      · rw [if_neg hvn]
        exact hrec

/-- C3: `multi_place` writes exactly the granted slots. It performs `multi_alloc` (with
`alignment` in front of the further arguments) and returns its addresses and its value.
When the granted ranges are pairwise disjoint, as the address allocator's contract
promises, then for every `i < count` with `outAddresses[i] != invalid_address` the bytes
of the mapped buffer at `[outAddresses[i], outAddresses[i]+bytes[i])` equal the first
`bytes[i]` bytes of `dataToPlace[i]`; and every byte of the mapped buffer outside the
union of the granted ranges is unchanged. -/
theorem multi_place_writes_granted {σ α : Type} (A : AddressAllocator σ (Ptr × α))
    (signalled : Nat → Bool) (clock : List Nat) (st : StreamingTransientDataBufferST σ)
    (count : Nat) (dataToPlace : Nat → Ptr) (out bytes alignment : Ptr) (args : α) :
    (multi_place A signalled clock st count dataToPlace out bytes alignment args).2
      = (multi_alloc A signalled clock st count out bytes (alignment, args)).2 ∧
    ((∀ j, j < count → ∀ i, i < j →
        (multi_place A signalled clock st count dataToPlace out bytes alignment args).2.1 i
          ≠ invalid_address →
        (multi_place A signalled clock st count dataToPlace out bytes alignment args).2.1 j
          ≠ invalid_address →
        (multi_place A signalled clock st count dataToPlace out bytes alignment args).2.1 i
            + bytes i
          ≤ (multi_place A signalled clock st count dataToPlace out bytes alignment args).2.1 j
        ∨ (multi_place A signalled clock st count dataToPlace out bytes alignment args).2.1 j
            + bytes j
          ≤ (multi_place A signalled clock st count dataToPlace out bytes alignment
              args).2.1 i) →
      ∀ i, i < count →
        (multi_place A signalled clock st count dataToPlace out bytes alignment args).2.1 i
          ≠ invalid_address →
        ∀ k, k < bytes i →
          (multi_place A signalled clock st count dataToPlace out bytes alignment
              args).1.bufferPointer
            ((multi_place A signalled clock st count dataToPlace out bytes alignment
              args).2.1 i + k)
          = dataToPlace i k) ∧
    (∀ p,
      (∀ i, i < count →
        (multi_place A signalled clock st count dataToPlace out bytes alignment args).2.1 i
          ≠ invalid_address →
        ¬ ((multi_place A signalled clock st count dataToPlace out bytes alignment args).2.1 i
              ≤ p ∧
            p < (multi_place A signalled clock st count dataToPlace out bytes alignment
              args).2.1 i + bytes i)) →
      (multi_place A signalled clock st count dataToPlace out bytes alignment
          args).1.bufferPointer p
        = st.bufferPointer p) := by
  obtain ⟨_, _, _, _, _, _, hbuf⟩ :=
    multi_alloc_within_spec 50000 A signalled clock st count out bytes (alignment, args)
  have hbuf2 : (multi_alloc A signalled clock st count out bytes
      (alignment, args)).1.bufferPointer = st.bufferPointer := hbuf
  refine ⟨rfl, ?_, ?_⟩
  · intro hdisj i hi hv k hk
    simp only [multi_place] at hdisj hv ⊢
    have := placeLoop_written dataToPlace
      (multi_alloc A signalled clock st count out bytes (alignment, args)).2.1 bytes
      (multi_alloc A signalled clock st count out bytes (alignment, args)).1.bufferPointer
      ((multi_alloc A signalled clock st count out bytes (alignment, args)).2.1 i + k) i hv
      (by omega) (by omega) count hi
      (fun j hij hj hvj => by
        have := hdisj j hj i hij hv hvj
        omega)
    rw [this]
    congr 1
    omega
  · intro p hp
    simp only [multi_place] at hp ⊢
    rw [placeLoop_unchanged dataToPlace _ bytes _ p count hp, hbuf2]

/-- C3, witness: payloads of 3 and 10 bytes placed into a buffer whose bytes 4..19 are
free; the slots are granted the offsets 4 and 7. -/
theorem multi_place_writes_granted_witness :
    (∀ j, j < 2 → ∀ i, i < j →
        (multi_place (freeListAllocator (Ptr × Unit)) noneSignalled [0, 50000]
          (exampleBuffer [(4, 16)] []) 2 examplePayloads allInvalid examplePlaceSizes
          (fun _ => 1) ()).2.1 i ≠ invalid_address →
        (multi_place (freeListAllocator (Ptr × Unit)) noneSignalled [0, 50000]
          (exampleBuffer [(4, 16)] []) 2 examplePayloads allInvalid examplePlaceSizes
          (fun _ => 1) ()).2.1 j ≠ invalid_address →
        (multi_place (freeListAllocator (Ptr × Unit)) noneSignalled [0, 50000]
          (exampleBuffer [(4, 16)] []) 2 examplePayloads allInvalid examplePlaceSizes
          (fun _ => 1) ()).2.1 i + examplePlaceSizes i
          ≤ (multi_place (freeListAllocator (Ptr × Unit)) noneSignalled [0, 50000]
          (exampleBuffer [(4, 16)] []) 2 examplePayloads allInvalid examplePlaceSizes
          (fun _ => 1) ()).2.1 j
        ∨ (multi_place (freeListAllocator (Ptr × Unit)) noneSignalled [0, 50000]
          (exampleBuffer [(4, 16)] []) 2 examplePayloads allInvalid examplePlaceSizes
          (fun _ => 1) ()).2.1 j + examplePlaceSizes j
          ≤ (multi_place (freeListAllocator (Ptr × Unit)) noneSignalled [0, 50000]
          (exampleBuffer [(4, 16)] []) 2 examplePayloads allInvalid examplePlaceSizes
          (fun _ => 1) ()).2.1 i) ∧
    (multi_place (freeListAllocator (Ptr × Unit)) noneSignalled [0, 50000]
        (exampleBuffer [(4, 16)] []) 2 examplePayloads allInvalid examplePlaceSizes
        (fun _ => 1) ()).2.1 0 = 4 ∧
    (multi_place (freeListAllocator (Ptr × Unit)) noneSignalled [0, 50000]
        (exampleBuffer [(4, 16)] []) 2 examplePayloads allInvalid examplePlaceSizes
        (fun _ => 1) ()).2.1 1 = 7 ∧
    (∀ k, k < examplePlaceSizes 0 →
      (multi_place (freeListAllocator (Ptr × Unit)) noneSignalled [0, 50000]
          (exampleBuffer [(4, 16)] []) 2 examplePayloads allInvalid examplePlaceSizes
          (fun _ => 1) ()).1.bufferPointer
        ((multi_place (freeListAllocator (Ptr × Unit)) noneSignalled [0, 50000]
          (exampleBuffer [(4, 16)] []) 2 examplePayloads allInvalid examplePlaceSizes
          (fun _ => 1) ()).2.1 0 + k)
      = examplePayloads 0 k) :=
  ⟨by decide, by decide, by decide,
    (multi_place_writes_granted (freeListAllocator (Ptr × Unit)) noneSignalled [0, 50000]
      (exampleBuffer [(4, 16)] []) 2 examplePayloads allInvalid examplePlaceSizes
      (fun _ => 1) ()).2.1 (by decide) 0 (by decide) (by decide)⟩


/-- C7 (amended): reserved-space carving. With `r = AddressAlloc::reserved_size(buffer
address, bufSz, args)`, all three uses of `reserved_size` being the same value, the
constructor stores `reservedSpace = r` and `getBufferStart()` returns `buffer + r` whenever
`r` is a value of `size_type`. When moreover `r <= bufSz`, the address allocator is handed
the managed size `bufSz - r`, so that reserved size plus managed size equals `bufSz` and
the usable region starts right after the reserved prefix. When `r > bufSz` the unsigned
subtraction wraps and the managed size handed over is `bufSz - r + 2 ^ sizeBits`; reserved
size plus managed size then equals `bufSz` only modulo `2 ^ sizeBits`. -/
theorem reserved_space_carving {α : Type} (AA : AddressAlloc α) (buffer bufSz : Nat)
    (args : α) (hr : AA.reserved_size buffer bufSz args < 2 ^ AA.sizeBits) :
    (AddressAllocatorState.construct AA buffer bufSz args).reservedSpace
        = AA.reserved_size buffer bufSz args ∧
    (AddressAllocatorState.construct AA buffer bufSz args).getBufferStart
        = buffer + AA.reserved_size buffer bufSz args ∧
    (AddressAllocatorState.construct AA buffer bufSz args).baseReservedSpc = buffer ∧
    (AddressAllocatorState.construct AA buffer bufSz args).baseArgs = args ∧
    (AA.reserved_size buffer bufSz args ≤ bufSz → bufSz < 2 ^ AA.sizeBits →
      (AddressAllocatorState.construct AA buffer bufSz args).baseBufSz
          = bufSz - AA.reserved_size buffer bufSz args ∧
      (AddressAllocatorState.construct AA buffer bufSz args).reservedSpace
          + (AddressAllocatorState.construct AA buffer bufSz args).baseBufSz = bufSz) ∧
    (bufSz < AA.reserved_size buffer bufSz args →
      (AddressAllocatorState.construct AA buffer bufSz args).baseBufSz
          = bufSz + 2 ^ AA.sizeBits - AA.reserved_size buffer bufSz args) ∧
    ((AddressAllocatorState.construct AA buffer bufSz args).reservedSpace
        + (AddressAllocatorState.construct AA buffer bufSz args).baseBufSz) % 2 ^ AA.sizeBits
      = bufSz % 2 ^ AA.sizeBits := by
  simp only [AddressAllocatorState.construct, AddressAllocatorState.getBufferStart,
    Nat.mod_eq_of_lt hr]
  refine ⟨trivial, trivial, trivial, trivial, ?_, ?_, ?_⟩
  · intro hle hb
    have h1 : bufSz + 2 ^ AA.sizeBits - AA.reserved_size buffer bufSz args
        = (bufSz - AA.reserved_size buffer bufSz args) + 2 ^ AA.sizeBits := by omega
    rw [h1, Nat.add_mod_right, Nat.mod_eq_of_lt (by omega)]
    exact ⟨rfl, by omega⟩
  · intro hlt
    rw [Nat.mod_eq_of_lt (by omega)]
  · rw [Nat.add_mod_mod]
    have h2 : AA.reserved_size buffer bufSz args
        + (bufSz + 2 ^ AA.sizeBits - AA.reserved_size buffer bufSz args)
        = bufSz + 2 ^ AA.sizeBits := by omega
    rw [h2, Nat.add_mod_right]

/-- C7, counterexample: a buffer of 10 bytes under an allocator that reserves 4 bytes per
1-byte block. The reserved size is 40, the managed size handed to the allocator is
`10 - 40` wrapped to `2 ^ 32 - 30`, and reserved plus managed size is not 10. -/
theorem reserved_space_exceeds_buffer :
    perBlockAlloc.reserved_size 4096 10 1 = 40 ∧
    (AddressAllocatorState.construct perBlockAlloc 4096 10 1).baseBufSz = 4294967266 ∧
    ¬ ((AddressAllocatorState.construct perBlockAlloc 4096 10 1).reservedSpace
        + (AddressAllocatorState.construct perBlockAlloc 4096 10 1).baseBufSz = 10) := by
  decide

/-- C7, witness: a buffer of 1024 bytes with blocks of 16 bytes, 256 bytes reserved. -/
theorem reserved_space_carving_witness :
    perBlockAlloc.reserved_size 4096 1024 16 < 2 ^ perBlockAlloc.sizeBits ∧
    perBlockAlloc.reserved_size 4096 1024 16 ≤ 1024 ∧
    1024 < 2 ^ perBlockAlloc.sizeBits ∧
    (AddressAllocatorState.construct perBlockAlloc 4096 1024 16).baseBufSz
        = 1024 - perBlockAlloc.reserved_size 4096 1024 16 ∧
    (AddressAllocatorState.construct perBlockAlloc 4096 1024 16).reservedSpace
        + (AddressAllocatorState.construct perBlockAlloc 4096 1024 16).baseBufSz = 1024 :=
  ⟨by decide, by decide, by decide,
    (reserved_space_carving perBlockAlloc 4096 1024 16 (by decide)).2.2.2.2.1 (by decide)
      (by decide)⟩

/-- C9: staging chunks are bounded. In every iteration of
`updateBufferRangeViaStagingBuffer` the chunk size `subSize` requested from `multi_place`,
and copied and freed afterwards when the placement succeeds, is
`min(alignDown(max_size, max_alignment), size - uploadedSize)`; it is never larger than
the bytes still to upload and never larger than `max_size()`. `alignDown` and `max_size`
are not part of the sources: the statement assumes that `alignDown` does not round up
(`hcap`) and that `max_size()` is a 32-bit value (`hmax`). -/
theorem staging_chunk_bounded {ω : Type} (D : Collaborators ω) (offset size : Nat) (data : Ptr)
    (s : StagingState ω)
    (hcap : iterCap D s ≤ (D.max_size (D.max_alignment s.world).1).2)
    (hmax : (D.max_size (D.max_alignment s.world).1).2 < 2 ^ 32) :
    iterSubSize D size s = min (iterCap D s) (size - s.uploadedSize) ∧
    iterSubSize D size s ≤ (D.max_size (D.max_alignment s.world).1).2 ∧
    iterSubSize D size s ≤ size - s.uploadedSize ∧
    (stagingIteration D offset size data s).trace
      = s.trace ++ DriverCall.multi_place s.uploadedSize (iterSubSize D size s)
          (iterAlignment D s) (iterPlaced D size data s).2
        :: (if (iterPlaced D size data s).2 = invalid_address then []
            else iterFlushCalls D size data s ++
              [DriverCall.copyBuffer (iterPlaced D size data s).2 (iterWriteOffset offset s)
                  (iterSubSize D size s),
                DriverCall.placeFence (iterFence D offset size data s).2,
                DriverCall.multi_free 1 (iterPlaced D size data s).2 (iterSubSize D size s)
                  (iterFence D offset size data s).2,
                DriverCall.drop (iterFence D offset size data s).2]) ∧
    (∀ c, c ∈ iterFlushCalls D size data s →
      c = DriverCall.flushMappedMemoryRanges (D.getBoundMemory (iterPlaced D size data s).1)
        (iterPlaced D size data s).2
        (iterSubSize D size s)) := by
  have hmin : min (iterCap D s) (size - s.uploadedSize) < 2 ^ 32 :=
    lt_of_le_of_lt (Nat.min_le_left _ _) (lt_of_le_of_lt hcap hmax)
  have hsub : iterSubSize D size s = min (iterCap D s) (size - s.uploadedSize) := by
    simp only [iterSubSize]
    exact Nat.mod_eq_of_lt hmin
  refine ⟨hsub, ?_, ?_, ?_, ?_⟩
  · rw [hsub]; exact le_trans (Nat.min_le_left _ _) hcap
  · rw [hsub]; exact Nat.min_le_right _ _
  · by_cases hf : (iterPlaced D size data s).2 = invalid_address
    · simp only [stagingIteration, hf, if_true, List.append_assoc, List.singleton_append]
    · simp only [stagingIteration, hf, if_false, List.append_assoc, List.singleton_append,
        List.cons_append, List.nil_append]
  · intro c hc
    simp only [iterFlushCalls] at hc
    split at hc
    · exact List.mem_singleton.mp hc
    · cases hc

/-- C10: the staging loop retries instead of aborting. In an iteration of
`updateBufferRangeViaStagingBuffer` in which `multi_place` leaves `localOffset` equal to
`invalid_address`, the only call made is that `multi_place` (no flush, no `copyBuffer`, no
`placeFence`, no `multi_free`), `uploadedSize` is unchanged, the loop goes on with another
iteration, and that iteration requests the same chunk again: the same data pointer, and
the same size whenever the upload buffer reports the same chunk cap
`alignDown(max_size(), max_alignment())` as before (these members are not part of the
sources). -/
theorem staging_retries_on_failure {ω : Type} (D : Collaborators ω) (offset size : Nat)
    (data : Ptr) (s : StagingState ω)
    (hfail : (iterPlaced D size data s).2 = invalid_address) :
    (stagingIteration D offset size data s).trace
      = s.trace ++ [DriverCall.multi_place s.uploadedSize (iterSubSize D size s)
          (iterAlignment D s) invalid_address] ∧
    (stagingIteration D offset size data s).uploadedSize = s.uploadedSize ∧
    (stagingIteration D offset size data s).world = (iterPlaced D size data s).1 ∧
    (s.uploadedSize < size →
      (stagingIteration D offset size data s).uploadedSize < size ∧
      ∀ fuel, stagingLoop D offset size data (fuel + 1) s
        = stagingLoop D offset size data fuel (stagingIteration D offset size data s)) ∧
    data.offset (stagingIteration D offset size data s).uploadedSize
      = data.offset s.uploadedSize ∧
    (iterCap D (stagingIteration D offset size data s) = iterCap D s →
      iterSubSize D size (stagingIteration D offset size data s) = iterSubSize D size s) := by
  have hst : stagingIteration D offset size data s
      = { world := (iterPlaced D size data s).1, uploadedSize := s.uploadedSize,
          trace := s.trace ++ [DriverCall.multi_place s.uploadedSize (iterSubSize D size s)
            (iterAlignment D s) (iterPlaced D size data s).2] } := by
    simp only [stagingIteration, hfail, if_true]
  rw [hst]
  refine ⟨by rw [hfail], rfl, rfl, ?_, rfl, ?_⟩
  · intro hlt
    refine ⟨hlt, fun fuel => ?_⟩
    rw [← hst]
    simp only [stagingLoop, hlt, if_true]
  · intro hc
    simp only [iterSubSize] at hc ⊢
    rw [hc]

/-- C9, witness: `max_size` 100, `max_alignment` 16, 250 bytes to upload: the first chunk
is 96 bytes. -/
theorem staging_chunk_bounded_witness :
    iterCap (exampleDriver 100 16 0 (fun _ => true)) stagingStart
      ≤ ((exampleDriver 100 16 0 (fun _ => true)).max_size
          ((exampleDriver 100 16 0 (fun _ => true)).max_alignment stagingStart.world).1).2 ∧
    ((exampleDriver 100 16 0 (fun _ => true)).max_size
          ((exampleDriver 100 16 0 (fun _ => true)).max_alignment stagingStart.world).1).2
      < 2 ^ 32 ∧
    iterSubSize (exampleDriver 100 16 0 (fun _ => true)) 250 stagingStart = 96 ∧
    iterSubSize (exampleDriver 100 16 0 (fun _ => true)) 250 stagingStart
      = min (iterCap (exampleDriver 100 16 0 (fun _ => true)) stagingStart)
          (250 - stagingStart.uploadedSize) :=
  ⟨by decide, by decide, by decide,
    (staging_chunk_bounded (exampleDriver 100 16 0 (fun _ => true)) 0 250 (fun i => i)
      stagingStart (by decide) (by decide)).1⟩

/-- C10, witness: the first two placements fail; the first iteration only calls
`multi_place` and leaves `uploadedSize` at 0. -/
theorem staging_retries_on_failure_witness :
    (iterPlaced (exampleDriver 100 16 0 (fun w => decide (2 ≤ w))) 250 (fun i => i)
        stagingStart).2 = invalid_address ∧
    (stagingIteration (exampleDriver 100 16 0 (fun w => decide (2 ≤ w))) 0 250 (fun i => i)
        stagingStart).trace
      = stagingStart.trace ++
          [DriverCall.multi_place stagingStart.uploadedSize
            (iterSubSize (exampleDriver 100 16 0 (fun w => decide (2 ≤ w))) 250 stagingStart)
            (iterAlignment (exampleDriver 100 16 0 (fun w => decide (2 ≤ w))) stagingStart)
            invalid_address] ∧
    (stagingIteration (exampleDriver 100 16 0 (fun w => decide (2 ≤ w))) 0 250 (fun i => i)
        stagingStart).uploadedSize = stagingStart.uploadedSize :=
  ⟨by decide,
    (staging_retries_on_failure (exampleDriver 100 16 0 (fun w => decide (2 ≤ w))) 0 250
      (fun i => i) stagingStart (by decide)).1,
    (staging_retries_on_failure (exampleDriver 100 16 0 (fun w => decide (2 ≤ w))) 0 250
      (fun i => i) stagingStart (by decide)).2.1⟩



/-! ### The staging loop, one iteration -/

theorem stagingIteration_of_failed {ω : Type} (D : Collaborators ω) (offset size : Nat)
    (data : Ptr) (s : StagingState ω)
    (h : (iterPlaced D size data s).2 = invalid_address) :
    stagingIteration D offset size data s
      = { world := (iterPlaced D size data s).1, uploadedSize := s.uploadedSize,
          trace := s.trace ++ [DriverCall.multi_place s.uploadedSize (iterSubSize D size s)
            (iterAlignment D s) (iterPlaced D size data s).2] } := by
  simp only [stagingIteration, h, if_true]

theorem stagingIteration_of_placed {ω : Type} (D : Collaborators ω) (offset size : Nat)
    (data : Ptr) (s : StagingState ω)
    (h : (iterPlaced D size data s).2 ≠ invalid_address) :
    stagingIteration D offset size data s
      = { world := D.drop (D.multi_free (iterFence D offset size data s).1 1
            (iterPlaced D size data s).2 (iterSubSize D size s)
            (iterFence D offset size data s).2) (iterFence D offset size data s).2,
          uploadedSize := (s.uploadedSize + iterSubSize D size s) % 2 ^ 32,
          trace := s.trace ++ [DriverCall.multi_place s.uploadedSize (iterSubSize D size s)
              (iterAlignment D s) (iterPlaced D size data s).2]
            ++ iterFlushCalls D size data s ++
            [DriverCall.copyBuffer (iterPlaced D size data s).2 (iterWriteOffset offset s)
                (iterSubSize D size s),
              DriverCall.placeFence (iterFence D offset size data s).2,
              DriverCall.multi_free 1 (iterPlaced D size data s).2 (iterSubSize D size s)
                (iterFence D offset size data s).2,
              DriverCall.drop (iterFence D offset size data s).2] } := by
  simp only [stagingIteration, h, if_false]

/-- C11: flush exactly when needed. In an iteration of `updateBufferRangeViaStagingBuffer`
whose placement succeeded, `flushMappedMemoryRanges` is called, with the single range
(bound memory, `localOffset`, `subSize`), if and only if `needsManualFlushOrInvalidate()`
is true, that is if and only if `mappingCapability & EMCF_COHERENT` is zero. When it is
called, it is the call right after `multi_place` and right before `copyBuffer` of the
chunk: it acts on the driver state `multi_place` left, and `copyBuffer` acts on the state
the flush left. When it is not called, `copyBuffer` follows `multi_place` directly and acts
on the state `multi_place` left. In both cases the iteration ends in the state left by
`placeFence`, `multi_free` and the drop of the fence, applied after the copy; and the
placement is the call of `multi_place` on the payload `data + uploadedSize`, with
`localOffset` preset to `invalid_address`, the chunk size and the alignment. -/
theorem staging_flush_iff_needed {ω : Type} (D : Collaborators ω) (offset size : Nat)
    (data : Ptr) (s : StagingState ω)
    (hplaced : (iterPlaced D size data s).2 ≠ invalid_address) :
    (needsManualFlushOrInvalidate D (iterPlaced D size data s).1 = true ↔
      D.mappingCapability (iterPlaced D size data s).1 &&& D.EMCF_COHERENT = 0) ∧
    (needsManualFlushOrInvalidate D (iterPlaced D size data s).1 = true →
      (stagingIteration D offset size data s).trace
        = s.trace ++
          [DriverCall.multi_place s.uploadedSize (iterSubSize D size s) (iterAlignment D s)
              (iterPlaced D size data s).2,
            DriverCall.flushMappedMemoryRanges
              (D.getBoundMemory (iterPlaced D size data s).1) (iterPlaced D size data s).2
              (iterSubSize D size s),
            DriverCall.copyBuffer (iterPlaced D size data s).2 (iterWriteOffset offset s)
              (iterSubSize D size s),
            DriverCall.placeFence (iterFence D offset size data s).2,
            DriverCall.multi_free 1 (iterPlaced D size data s).2 (iterSubSize D size s)
              (iterFence D offset size data s).2,
            DriverCall.drop (iterFence D offset size data s).2] ∧
      iterFence D offset size data s
        = D.placeFence
            (D.copyBuffer
              (D.flushMappedMemoryRanges (iterPlaced D size data s).1
                (D.getBoundMemory (iterPlaced D size data s).1) (iterPlaced D size data s).2
                (iterSubSize D size s))
              (iterPlaced D size data s).2 (iterWriteOffset offset s)
              (iterSubSize D size s))) ∧
    (needsManualFlushOrInvalidate D (iterPlaced D size data s).1 = false →
      (stagingIteration D offset size data s).trace
        = s.trace ++
          [DriverCall.multi_place s.uploadedSize (iterSubSize D size s) (iterAlignment D s)
              (iterPlaced D size data s).2,
            DriverCall.copyBuffer (iterPlaced D size data s).2 (iterWriteOffset offset s)
              (iterSubSize D size s),
            DriverCall.placeFence (iterFence D offset size data s).2,
            DriverCall.multi_free 1 (iterPlaced D size data s).2 (iterSubSize D size s)
              (iterFence D offset size data s).2,
            DriverCall.drop (iterFence D offset size data s).2] ∧
      iterFence D offset size data s
        = D.placeFence
            (D.copyBuffer (iterPlaced D size data s).1 (iterPlaced D size data s).2
              (iterWriteOffset offset s) (iterSubSize D size s))) ∧
    (stagingIteration D offset size data s).world
      = D.drop
          (D.multi_free (iterFence D offset size data s).1 1 (iterPlaced D size data s).2
            (iterSubSize D size s) (iterFence D offset size data s).2)
          (iterFence D offset size data s).2 ∧
    iterPlaced D size data s
      = D.multi_place (D.max_size (D.max_alignment s.world).1).1
          (data.offset s.uploadedSize) invalid_address (iterSubSize D size s)
          (iterAlignment D s) := by
  rw [stagingIteration_of_placed D offset size data s hplaced]
  refine ⟨?_, ?_, ?_, rfl, rfl⟩
  · simp [needsManualFlushOrInvalidate]
  · intro hn
    refine ⟨?_, ?_⟩
    · simp only [iterFlushCalls, hn, if_true, List.append_assoc, List.singleton_append,
        List.cons_append, List.nil_append]
    · simp only [iterFence, iterFlushed, hn, if_true]
  · intro hn
    refine ⟨?_, ?_⟩
    · simp only [iterFlushCalls, hn, Bool.false_eq_true, if_false, List.append_assoc,
        List.singleton_append, List.cons_append, List.nil_append]
    · simp only [iterFence, iterFlushed, hn, Bool.false_eq_true, if_false]

/-- C11, witness: the upload buffer of `recordingDriver` with capability 0 (not coherent)
places the first chunk at once; the flush of (memory 7, offset 0, 96 bytes) comes between
`multi_place` and `copyBuffer`, in the calls recorded by the loop and in the calls the
driver itself saw. -/
theorem staging_flush_iff_needed_witness :
    (iterPlaced (recordingDriver 100 16 0 (fun _ => true)) 250 (fun i => i)
      recordingStart).2 ≠ invalid_address ∧
    needsManualFlushOrInvalidate (recordingDriver 100 16 0 (fun _ => true))
      (iterPlaced (recordingDriver 100 16 0 (fun _ => true)) 250 (fun i => i)
        recordingStart).1 = true ∧
    (stagingIteration (recordingDriver 100 16 0 (fun _ => true)) 1000 250 (fun i => i)
        recordingStart).trace
      = [DriverCall.multi_place 0 96 16 0, DriverCall.flushMappedMemoryRanges 7 0 96,
          DriverCall.copyBuffer 0 1000 96, DriverCall.placeFence (some 1),
          DriverCall.multi_free 1 0 96 (some 1), DriverCall.drop (some 1)] ∧
    (stagingIteration (recordingDriver 100 16 0 (fun _ => true)) 1000 250 (fun i => i)
        recordingStart).world
      = [DriverCall.multi_place 0 96 16 0, DriverCall.flushMappedMemoryRanges 7 0 96,
          DriverCall.copyBuffer 0 1000 96, DriverCall.placeFence (some 1),
          DriverCall.multi_free 1 0 96 (some 1), DriverCall.drop (some 1)] :=
  ⟨by decide, by decide,
    ((staging_flush_iff_needed (recordingDriver 100 16 0 (fun _ => true)) 1000 250
      (fun i => i) recordingStart (by decide)).2.1 (by decide)).1.trans (by decide),
    by decide⟩

theorem list_range_map_sum (g : Nat → Nat) (n : Nat) :
    ((List.range n).map g).sum = ∑ i ∈ Finset.range n, g i := by
  induction n with
  | zero => rfl
  | succ n ih =>
    rw [List.range_succ, List.map_append, List.sum_append, Finset.sum_range_succ, ih]
    simp

theorem freedBytes_eq_sum (f : DeferredFreeFunctor) :
    f.freedBytes = ∑ i ∈ Finset.range f.numAllocs, f.rangeData (f.numAllocs + i) := by
  rw [freedBytes_eq, list_range_map_sum]
  simp

/-- C15: draining one deferred-free entry accumulates freed bytes by saturating
subtraction. For an entry with `n = numAllocs` ranges whose sizes are
`b_i = rangeData[numAllocs+i]` and an incoming `unallocatedSize = u`, the call
`operator()(unallocatedSize)` hands all `n` ranges to `multi_free_addr`, leaves
`unallocatedSize` equal to `max(u - (b_0+...+b_(n-1)), 0)`, the difference taken in the
integers, and returns `true` if and only if `b_0+...+b_(n-1) >= u`. -/
theorem deferred_free_saturating_subtraction {σ α : Type} (A : AddressAllocator σ α)
    (f : DeferredFreeFunctor) (s : σ) (u : Nat) :
    (f.operator_call_size A s u).1
      = A.multi_free_addr s f.numAllocs f.rangeData (f.rangeData.offset f.numAllocs) ∧
    f.ranges = (List.range f.numAllocs).map
      (fun i => (f.rangeData i, f.rangeData (f.numAllocs + i))) ∧
    (((f.operator_call_size A s u).2.1 : Nat) : Int)
      = max ((u : Int) - ((∑ i ∈ Finset.range f.numAllocs, f.rangeData (f.numAllocs + i) : Nat)
          : Int)) 0 ∧
    ((f.operator_call_size A s u).2.2 = true ↔
      u ≤ ∑ i ∈ Finset.range f.numAllocs, f.rangeData (f.numAllocs + i)) := by
  rw [operator_call_size_eq, freedBytes_eq_sum]
  refine ⟨rfl, rfl, ?_, ?_⟩
  · simp only []
    omega
  · simp

theorem iterSubSize_of_lt {ω : Type} (D : Collaborators ω) (size : Nat) (s : StagingState ω)
    (hsize : size < 2 ^ 32) :
    iterSubSize D size s = min (iterCap D s) (size - s.uploadedSize) := by
  simp only [iterSubSize]
  apply Nat.mod_eq_of_lt
  have := Nat.min_le_right (iterCap D s) (size - s.uploadedSize)
  omega

theorem uploadedSize_of_failed {ω : Type} (D : Collaborators ω) (offset size : Nat)
    (data : Ptr) (s : StagingState ω)
    (h : (iterPlaced D size data s).2 = invalid_address) :
    (stagingIteration D offset size data s).uploadedSize = s.uploadedSize := by
  rw [stagingIteration_of_failed D offset size data s h]

theorem uploadedSize_of_placed {ω : Type} (D : Collaborators ω) (offset size : Nat)
    (data : Ptr) (s : StagingState ω) (hsize : size < 2 ^ 32)
    (hle : s.uploadedSize ≤ size)
    (h : (iterPlaced D size data s).2 ≠ invalid_address) :
    (stagingIteration D offset size data s).uploadedSize
      = s.uploadedSize + min (iterCap D s) (size - s.uploadedSize) := by
  rw [stagingIteration_of_placed D offset size data s h, iterSubSize_of_lt D size s hsize]
  simp only []
  apply Nat.mod_eq_of_lt
  have := Nat.min_le_right (iterCap D s) (size - s.uploadedSize)
  omega

/-- The loop ends after exactly `n` iterations when the `n` states it passes through have
`uploadedSize < size` and the state after them has not: `n` units of fuel or more give
that state, less fuel gives no result. -/
theorem stagingLoop_of_iterate {ω : Type} (D : Collaborators ω) (offset size : Nat)
    (data : Ptr) (n : Nat) :
    ∀ s : StagingState ω,
      (∀ j, j < n → ((stagingIteration D offset size data)^[j] s).uploadedSize < size) →
      ¬ ((stagingIteration D offset size data)^[n] s).uploadedSize < size →
      (∀ fuel, n ≤ fuel → stagingLoop D offset size data fuel s
        = some ((stagingIteration D offset size data)^[n] s)) ∧
      (∀ fuel, fuel < n → stagingLoop D offset size data fuel s = none) := by
  induction n with
  | zero =>
    intro s _ hstop
    simp only [Function.iterate_zero, id_eq] at hstop
    refine ⟨fun fuel _ => ?_, fun fuel h => absurd h (Nat.not_lt_zero _)⟩
    cases fuel <;> simp [stagingLoop, hstop]
  | succ n ih =>
    intro s hrun hstop
    have h0 : s.uploadedSize < size := hrun 0 (by omega)
    obtain ⟨ih1, ih2⟩ := ih (stagingIteration D offset size data s)
      (fun j hj => by
        have := hrun (j + 1) (by omega)
        rwa [Function.iterate_succ_apply] at this)
      (by rwa [Function.iterate_succ_apply] at hstop)
    refine ⟨fun fuel hf => ?_, fun fuel hf => ?_⟩
    · cases fuel with
      | zero => omega
      | succ fuel =>
        simp only [stagingLoop, h0, if_true, Function.iterate_succ_apply]
        exact ih1 fuel (by omega)
    · cases fuel with
      | zero => simp [stagingLoop, h0]
      | succ fuel =>
        simp only [stagingLoop, h0, if_true]
        exact ih2 fuel (by omega)

theorem uploadedSize_lt_of_iteration {ω : Type} (D : Collaborators ω) (offset size : Nat)
    (data : Ptr) (s : StagingState ω) (h : s.uploadedSize < 2 ^ 32) :
    (stagingIteration D offset size data s).uploadedSize < 2 ^ 32 := by
  by_cases hp : (iterPlaced D size data s).2 = invalid_address
  · rw [uploadedSize_of_failed D offset size data s hp]; exact h
  · rw [stagingIteration_of_placed D offset size data s hp]
    exact Nat.mod_lt _ (by norm_num)

/-- An upload of `2 ^ 32` bytes or more never ends: `uploadedSize` is a `uint32_t` and
stays below `size` whatever the collaborators do. -/
theorem stagingLoop_none_of_large {ω : Type} (D : Collaborators ω) (offset size : Nat)
    (data : Ptr) (hsize : 2 ^ 32 ≤ size) (fuel : Nat) :
    ∀ s : StagingState ω, s.uploadedSize < 2 ^ 32 →
      stagingLoop D offset size data fuel s = none := by
  induction fuel with
  | zero =>
    intro s h
    have : s.uploadedSize < size := by omega
    simp [stagingLoop, this]
  | succ fuel ih =>
    intro s h
    have : s.uploadedSize < size := by omega
    simp only [stagingLoop, this, if_true]
    exact ih _ (uploadedSize_lt_of_iteration D offset size data s h)

/-- C14, failing input: an upload of `2 ^ 32` bytes to offset 1000 through an upload buffer
with `max_size` `2 ^ 31` and alignment 1, every placement succeeding. After two chunks the
`uint32_t uploadedSize` has wrapped to 0: the third `copyBuffer` goes to offset 1000 again,
on top of the first, and is filled from the start of `data` again; and the loop has not
ended after any number of iterations. -/
theorem staging_upload_wraps_at_4GiB :
    copiedRanges ((stagingIteration (exampleDriver (2 ^ 31) 1 0 (fun _ => true)) 1000 (2 ^ 32)
        (fun i => i))^[3] stagingStart).trace
      = [(1000, 2 ^ 31), (1000 + 2 ^ 31, 2 ^ 31), (1000, 2 ^ 31)] ∧
    placedChunks ((stagingIteration (exampleDriver (2 ^ 31) 1 0 (fun _ => true)) 1000 (2 ^ 32)
        (fun i => i))^[3] stagingStart).trace
      = [(0, 2 ^ 31), (2 ^ 31, 2 ^ 31), (0, 2 ^ 31)] ∧
    (∀ fuel, updateBufferRangeViaStagingBuffer (exampleDriver (2 ^ 31) 1 0 (fun _ => true))
      fuel 0 1000 (2 ^ 32) (fun i => i) = none) :=
  ⟨by decide, by decide, fun fuel =>
    stagingLoop_none_of_large _ 1000 (2 ^ 32) _ (le_refl _) fuel _ (by decide)⟩

theorem tiling_append (start : Nat) (lengths : List Nat) (x : Nat) :
    tiling start (lengths ++ [x]) = tiling start lengths ++ [(start + lengths.sum, x)] := by
  induction lengths generalizing start with
  | nil => simp [tiling]
  | cons l rest ih =>
    rw [List.cons_append, tiling, ih, tiling, List.sum_cons, Nat.add_assoc, List.cons_append]

theorem chunks_iterFlushCalls {ω : Type} (D : Collaborators ω) (size : Nat) (data : Ptr)
    (s : StagingState ω) :
    (iterFlushCalls D size data s).filterMap DriverCall.placedChunk = [] ∧
    (iterFlushCalls D size data s).filterMap DriverCall.copied = [] ∧
    ∀ m : TransferMemory, applyCalls data m (iterFlushCalls D size data s) = m := by
  simp only [iterFlushCalls]
  split
  · exact ⟨rfl, rfl, fun _ => rfl⟩
  · exact ⟨rfl, rfl, fun _ => rfl⟩

theorem chunks_iteration_placed {ω : Type} (D : Collaborators ω) (offset size : Nat)
    (data : Ptr) (s : StagingState ω)
    (h : (iterPlaced D size data s).2 ≠ invalid_address) :
    placedChunks (stagingIteration D offset size data s).trace
      = placedChunks s.trace ++ [(s.uploadedSize, iterSubSize D size s)] ∧
    copiedRanges (stagingIteration D offset size data s).trace
      = copiedRanges s.trace ++ [(iterWriteOffset offset s, iterSubSize D size s)] ∧
    ∀ m : TransferMemory,
      (applyCalls data m (stagingIteration D offset size data s).trace).destination
        = memcpy (applyCalls data m s.trace).destination (iterWriteOffset offset s)
            ((memcpy (applyCalls data m s.trace).staging (iterPlaced D size data s).2
              (data.offset s.uploadedSize) (iterSubSize D size s)).offset
              (iterPlaced D size data s).2)
            (iterSubSize D size s) := by
  rw [stagingIteration_of_placed D offset size data s h]
  refine ⟨?_, ?_, fun m => ?_⟩
  · simp only [placedChunks, List.filterMap_append, (chunks_iterFlushCalls D size data s).1]
    simp [DriverCall.placedChunk, h]
  · simp only [copiedRanges, List.filterMap_append, (chunks_iterFlushCalls D size data s).2.1]
    simp [DriverCall.copied]
  · have hf := (chunks_iterFlushCalls D size data s).2.2
    simp only [applyCalls] at hf ⊢
    simp only [List.foldl_append, List.foldl_cons, List.foldl_nil, applyCall, h, if_false, hf]

theorem chunks_iteration_failed {ω : Type} (D : Collaborators ω) (offset size : Nat)
    (data : Ptr) (s : StagingState ω)
    (h : (iterPlaced D size data s).2 = invalid_address) :
    placedChunks (stagingIteration D offset size data s).trace = placedChunks s.trace ∧
    copiedRanges (stagingIteration D offset size data s).trace = copiedRanges s.trace ∧
    ∀ m : TransferMemory,
      applyCalls data m (stagingIteration D offset size data s).trace
        = applyCalls data m s.trace := by
  rw [stagingIteration_of_failed D offset size data s h]
  refine ⟨?_, ?_, fun m => ?_⟩
  · simp [placedChunks, List.filterMap_append, DriverCall.placedChunk, h]
  · simp [copiedRanges, List.filterMap_append, DriverCall.copied]
  · simp [applyCalls, List.foldl_append, applyCall, h]

/-- The state of the loop after any number of iterations of an upload of less than
`2 ^ 32` bytes, each entered with `uploadedSize < size`: the chunks placed so far are
consecutive pieces of `data` from its start, the copies go to the same pieces of the
destination range, and the destination holds the data up to `uploadedSize` and is
unchanged elsewhere. -/
theorem staging_invariant {ω : Type} (D : Collaborators ω) (w : ω) (offset size : Nat)
    (data : Ptr) (hsize : size < 2 ^ 32) (hoff : offset + size ≤ 2 ^ 64) (n : Nat) :
    (∀ j, j < n → ((stagingIteration D offset size data)^[j]
        { world := w, uploadedSize := 0, trace := [] }).uploadedSize < size) →
    ∃ lengths : List Nat,
      placedChunks ((stagingIteration D offset size data)^[n]
          { world := w, uploadedSize := 0, trace := [] }).trace = tiling 0 lengths ∧
      copiedRanges ((stagingIteration D offset size data)^[n]
          { world := w, uploadedSize := 0, trace := [] }).trace
        = (tiling 0 lengths).map (fun c => (offset + c.1, c.2)) ∧
      lengths.sum = ((stagingIteration D offset size data)^[n]
          { world := w, uploadedSize := 0, trace := [] }).uploadedSize ∧
      ((stagingIteration D offset size data)^[n]
          { world := w, uploadedSize := 0, trace := [] }).uploadedSize ≤ size ∧
      ∀ (m : TransferMemory) (p : Nat),
        (applyCalls data m ((stagingIteration D offset size data)^[n]
          { world := w, uploadedSize := 0, trace := [] }).trace).destination p
          = if offset ≤ p ∧ p < offset + ((stagingIteration D offset size data)^[n]
                { world := w, uploadedSize := 0, trace := [] }).uploadedSize
            then data (p - offset) else m.destination p := by
  induction n with
  | zero =>
    intro _
    refine ⟨[], rfl, rfl, rfl, Nat.zero_le _, fun m p => ?_⟩
    have : ¬ (offset ≤ p ∧ p < offset + 0) := by omega
    simp only [Function.iterate_zero, id_eq, applyCalls, List.foldl_nil, if_neg this]
  | succ n ih =>
    intro hrun
    obtain ⟨lengths, h1, h2, h3, h4, h5⟩ := ih (fun j hj => hrun j (by omega))
    have hlt := hrun n (by omega)
    rw [Function.iterate_succ_apply']
    generalize (stagingIteration D offset size data)^[n]
      { world := w, uploadedSize := 0, trace := [] } = s at h1 h2 h3 h4 h5 hlt ⊢
    by_cases hp : (iterPlaced D size data s).2 = invalid_address
    · obtain ⟨c1, c2, c3⟩ := chunks_iteration_failed D offset size data s hp
      rw [c1, c2, uploadedSize_of_failed D offset size data s hp]
      refine ⟨lengths, h1, h2, h3, h4, fun m p => ?_⟩
      rw [c3]; exact h5 m p
    · obtain ⟨c1, c2, c3⟩ := chunks_iteration_placed D offset size data s hp
      have hup := uploadedSize_of_placed D offset size data s hsize h4 hp
      have hsub := iterSubSize_of_lt D size s hsize
      have hle := Nat.min_le_right (iterCap D s) (size - s.uploadedSize)
      have hwo : iterWriteOffset offset s = offset + s.uploadedSize := by
        simp only [iterWriteOffset]
        exact Nat.mod_eq_of_lt (by omega)
      rw [c1, c2, hup, hwo, hsub]
      refine ⟨lengths ++ [min (iterCap D s) (size - s.uploadedSize)], ?_, ?_, ?_, ?_, ?_⟩
      · rw [tiling_append, h1, h3, Nat.zero_add]
      · rw [tiling_append, List.map_append, h2, h3, Nat.zero_add]
        rfl
      · rw [List.sum_append, h3]
        simp
      · omega
      · intro m p
        rw [c3, hwo, hsub]
        by_cases hin : offset + s.uploadedSize ≤ p ∧
            p < offset + s.uploadedSize + min (iterCap D s) (size - s.uploadedSize)
        · rw [memcpy_inside _ _ _ _ _ hin.1 hin.2]
          simp only [Ptr.offset]
          rw [memcpy_inside _ _ _ _ _ (by omega) (by omega), if_pos (by omega)]
          simp only [Ptr.offset]
          congr 1
          omega
        · rw [memcpy_outside _ _ _ _ _ hin, h5 m p]
          by_cases hq : offset ≤ p ∧ p < offset + s.uploadedSize
          · rw [if_pos hq, if_pos (by omega)]
          · rw [if_neg hq, if_neg (by omega)]

theorem uploadedSize_step_bounds {ω : Type} (D : Collaborators ω) (offset size : Nat)
    (data : Ptr) (s : StagingState ω) (hsize : size < 2 ^ 32) (hle : s.uploadedSize ≤ size) :
    s.uploadedSize ≤ (stagingIteration D offset size data s).uploadedSize ∧
    (stagingIteration D offset size data s).uploadedSize ≤ size := by
  by_cases hp : (iterPlaced D size data s).2 = invalid_address
  · rw [uploadedSize_of_failed D offset size data s hp]
    exact ⟨le_refl _, hle⟩
  · rw [uploadedSize_of_placed D offset size data s hsize hle hp]
    have := Nat.min_le_right (iterCap D s) (size - s.uploadedSize)
    omega

theorem uploadedSize_iterate_le {ω : Type} (D : Collaborators ω) (offset size : Nat)
    (data : Ptr) (s : StagingState ω) (hsize : size < 2 ^ 32) (hle : s.uploadedSize ≤ size)
    (n : Nat) :
    ((stagingIteration D offset size data)^[n] s).uploadedSize ≤ size := by
  induction n with
  | zero => exact hle
  | succ n ih =>
    rw [Function.iterate_succ_apply']
    exact (uploadedSize_step_bounds D offset size data _ hsize ih).2

theorem uploadedSize_iterate_mono {ω : Type} (D : Collaborators ω) (offset size : Nat)
    (data : Ptr) (s : StagingState ω) (hsize : size < 2 ^ 32) (hle : s.uploadedSize ≤ size)
    (n k : Nat) :
    ((stagingIteration D offset size data)^[n] s).uploadedSize
      ≤ ((stagingIteration D offset size data)^[n + k] s).uploadedSize := by
  induction k with
  | zero => exact le_refl _
  | succ k ih =>
    rw [← Nat.add_assoc, Function.iterate_succ_apply']
    exact le_trans ih (uploadedSize_step_bounds D offset size data _ hsize
      (uploadedSize_iterate_le D offset size data s hsize hle _)).1

/-- If, as long as bytes remain, some later placement succeeds with a non-empty chunk,
the upload reaches `uploadedSize = size` after finitely many iterations. -/
theorem staging_reaches_size {ω : Type} (D : Collaborators ω) (offset size : Nat)
    (data : Ptr) (s : StagingState ω) (hsize : size < 2 ^ 32) (hle : s.uploadedSize ≤ size)
    (hev : ∀ n, ((stagingIteration D offset size data)^[n] s).uploadedSize < size →
      ∃ m, n ≤ m ∧
        (iterPlaced D size data ((stagingIteration D offset size data)^[m] s)).2
          ≠ invalid_address ∧
        1 ≤ iterCap D ((stagingIteration D offset size data)^[m] s)) :
    ∀ r n, size - ((stagingIteration D offset size data)^[n] s).uploadedSize ≤ r →
      ∃ N, ¬ ((stagingIteration D offset size data)^[N] s).uploadedSize < size := by
  intro r
  induction r with
  | zero =>
    intro n hn
    exact ⟨n, by omega⟩
  | succ r ih =>
    intro n hn
    by_cases hdone : ((stagingIteration D offset size data)^[n] s).uploadedSize < size
    · obtain ⟨m, hnm, hp, hc⟩ := hev n hdone
      obtain ⟨k, rfl⟩ := Nat.exists_eq_add_of_le hnm
      have hmono := uploadedSize_iterate_mono D offset size data s hsize hle n k
      have hm := uploadedSize_iterate_le D offset size data s hsize hle (n + k)
      apply ih (n + k + 1)
      rw [Function.iterate_succ_apply',
        uploadedSize_of_placed D offset size data _ hsize hm hp]
      have := Nat.min_le_right (iterCap D ((stagingIteration D offset size data)^[n + k] s))
        (size - ((stagingIteration D offset size data)^[n + k] s).uploadedSize)
      by_cases hfull : ((stagingIteration D offset size data)^[n + k] s).uploadedSize = size
      · omega
      · have h1 : 1 ≤ min (iterCap D ((stagingIteration D offset size data)^[n + k] s))
            (size - ((stagingIteration D offset size data)^[n + k] s).uploadedSize) := by
          apply Nat.le_min.mpr
          exact ⟨hc, by omega⟩
        omega
    · exact ⟨n, hdone⟩

/-- C14 below 4 GiB: for `size < 2 ^ 32` and a destination range inside the 64-bit address
space, if, as long as bytes remain, some later `multi_place` succeeds with a non-empty
chunk, then `updateBufferRangeViaStagingBuffer` ends; its successive `copyBuffer` calls
have destination offsets `offset + u_k` and lengths `s_k` with `u_0 = 0`,
`u_(k+1) = u_k + s_k` and the lengths summing to `size`, chunk `k` is filled from
`data + u_k`, and afterwards every destination byte `offset + j` with `j < size` holds
`data[j]` while the other destination bytes are unchanged. -/
theorem staging_uploads_whole_range_below_4GiB {ω : Type} (D : Collaborators ω) (w : ω)
    (offset size : Nat) (data : Ptr) (hsize : size < 2 ^ 32) (hoff : offset + size ≤ 2 ^ 64)
    (hev : ∀ n, ((stagingIteration D offset size data)^[n]
        { world := w, uploadedSize := 0, trace := [] }).uploadedSize < size →
      ∃ m, n ≤ m ∧
        (iterPlaced D size data ((stagingIteration D offset size data)^[m]
          { world := w, uploadedSize := 0, trace := [] })).2 ≠ invalid_address ∧
        1 ≤ iterCap D ((stagingIteration D offset size data)^[m]
          { world := w, uploadedSize := 0, trace := [] })) :
    ∃ (n : Nat) (s1 : StagingState ω),
      (∀ fuel, n ≤ fuel →
        updateBufferRangeViaStagingBuffer D fuel w offset size data = some s1) ∧
      s1.uploadedSize = size ∧
      ∃ lengths : List Nat,
        placedChunks s1.trace = tiling 0 lengths ∧
        copiedRanges s1.trace = (tiling 0 lengths).map (fun c => (offset + c.1, c.2)) ∧
        lengths.sum = size ∧
        ∀ (m : TransferMemory) (p : Nat),
          (applyCalls data m s1.trace).destination p
            = if offset ≤ p ∧ p < offset + size then data (p - offset)
              else m.destination p := by
  classical
  have hex := staging_reaches_size D offset size data
    { world := w, uploadedSize := 0, trace := [] } hsize (Nat.zero_le _) hev size 0
    (by simp)
  have hstop := Nat.find_spec hex
  have hrun : ∀ j, j < Nat.find hex → ((stagingIteration D offset size data)^[j]
      { world := w, uploadedSize := 0, trace := [] }).uploadedSize < size := by
    intro j hj
    have := Nat.find_min hex hj
    exact not_not.mp this
  obtain ⟨h1, _⟩ := stagingLoop_of_iterate D offset size data (Nat.find hex)
    { world := w, uploadedSize := 0, trace := [] } hrun hstop
  obtain ⟨lengths, i1, i2, i3, i4, i5⟩ :=
    staging_invariant D w offset size data hsize hoff (Nat.find hex) hrun
  have hfull : ((stagingIteration D offset size data)^[Nat.find hex]
      { world := w, uploadedSize := 0, trace := [] }).uploadedSize = size := by omega
  refine ⟨Nat.find hex, _, h1, hfull, lengths, i1, i2, by rw [i3, hfull], fun m p => ?_⟩
  rw [i5 m p, hfull]

/-- C14 below 4 GiB, witness: 250 bytes to offset 1000 through `exampleDriver` with chunk
cap 96, every placement succeeding. -/
theorem staging_uploads_whole_range_below_4GiB_witness :
    ∃ (n : Nat) (s1 : StagingState Nat),
      (∀ fuel, n ≤ fuel →
        updateBufferRangeViaStagingBuffer (exampleDriver 100 16 0 (fun _ => true))
          fuel 0 1000 250 (fun i => i) = some s1) ∧
      s1.uploadedSize = 250 ∧
      ∃ lengths : List Nat,
        placedChunks s1.trace = tiling 0 lengths ∧
        copiedRanges s1.trace = (tiling 0 lengths).map (fun c => (1000 + c.1, c.2)) ∧
        lengths.sum = 250 ∧
        ∀ (m : TransferMemory) (p : Nat),
          (applyCalls (fun i => i) m s1.trace).destination p
            = if 1000 ≤ p ∧ p < 1000 + 250 then (fun i => i) (p - 1000)
              else m.destination p :=
  staging_uploads_whole_range_below_4GiB (exampleDriver 100 16 0 (fun _ => true))
    0 1000 250 (fun i => i) (by decide) (by decide)
    (fun n _ => ⟨n, le_refl n, by simp [iterPlaced, exampleDriver, invalid_address],
      by simp [iterCap, iterAlignment, exampleDriver]⟩)

/-! ### `CommandLineHandler` -/

theorem getSerializedValuesLoop_eq (flag : Bool) (size : Nat) (rest : List Char) :
    ∀ (x : Nat) (handle : List (List Char)) (tmp : List Char),
      rest ≠ [] → x + rest.length = size →
      rest.getLast? ≠ some (separatorOf flag) →
      '\r' ∉ rest → '\n' ∉ rest →
      getSerializedValuesLoop flag size rest x handle tmp
        = handle ++ (rest.splitOn (separatorOf flag)).modifyHead (fun f => tmp ++ f) := by
  induction rest with
  | nil => intro x handle tmp h; exact absurd rfl h
  | cons c rest ih =>
    intro x handle tmp _ hlen hlast hr hn
    have hsep : (if flag = true then c = ' ' else c = ',') ↔ c = separatorOf flag := by
      cases flag <;> simp [separatorOf]
    cases rest with
    | nil =>
      have hc : c ≠ separatorOf flag := by
        intro h
        apply hlast
        simp [h]
      have hx : x = size - 1 := by simp at hlen; omega
      rw [getSerializedValuesLoop, if_neg (mt hsep.mp hc), if_pos hx, getSerializedValuesLoop]
      simp [List.splitOn, List.splitOnP_cons, hc, List.modifyHead]
    | cons c2 rest2 =>
      have hlast2 : (c2 :: rest2).getLast? ≠ some (separatorOf flag) := by
        simpa [List.getLast?_cons_cons] using hlast
      have hr2 : '\r' ∉ c2 :: rest2 := fun h => hr (List.mem_cons_of_mem _ h)
      have hn2 : '\n' ∉ c2 :: rest2 := fun h => hn (List.mem_cons_of_mem _ h)
      have hlen2 : (x + 1) + (c2 :: rest2).length = size := by
        simp only [List.length_cons] at hlen ⊢
        omega
      have hx : x ≠ size - 1 := by
        simp only [List.length_cons] at hlen
        omega
      have hcr : ¬ (c = '\r' ∨ c = '\n') := by
        intro h
        rcases h with h | h
        · exact hr (h ▸ List.mem_cons_self _ _)
        · exact hn (h ▸ List.mem_cons_self _ _)
      by_cases hc : c = separatorOf flag
      · rw [getSerializedValuesLoop, if_pos (hsep.mpr hc)]
        subst hc
        rw [ih (x + 1) _ _ (by simp) hlen2 hlast2 hr2 hn2]
        have : (separatorOf flag :: c2 :: rest2).splitOn (separatorOf flag)
            = [] :: (c2 :: rest2).splitOn (separatorOf flag) := by
          simp [List.splitOn, List.splitOnP_cons]
        rw [this]
        cases hsp : (c2 :: rest2).splitOn (separatorOf flag) <;>
          simp [List.modifyHead]
      · rw [getSerializedValuesLoop, if_neg (mt hsep.mp hc), if_neg hx, if_neg hcr]
        rw [ih (x + 1) _ _ (by simp) hlen2 hlast2 hr2 hn2]
        have : (c :: c2 :: rest2).splitOn (separatorOf flag)
            = ((c2 :: rest2).splitOn (separatorOf flag)).modifyHead (List.cons c) := by
          simp [List.splitOn, List.splitOnP_cons, hc]
        rw [this]
        cases hsp : (c2 :: rest2).splitOn (separatorOf flag) <;>
          simp [List.modifyHead]

/-- C19: `getSerializedValues` splits on the separator. For every non-empty string `s`
without `\r` and `\n` whose last character is not the separator, and for every reservation
hint `n`, `getSerializedValues(s, n, flag)` returns exactly the fields of `s` between the
separators, in order, empty fields kept (`List.splitOn`); the separator is `,` when
`onlyEntireArgvArgument` is false and the blank when it is true. -/
theorem getSerializedValues_splits (s : List Char) (n : Nat) (onlyEntireArgvArgument : Bool)
    (hne : s ≠ []) (hr : '\r' ∉ s) (hn : '\n' ∉ s)
    (hlast : s.getLast? ≠ some (separatorOf onlyEntireArgvArgument)) :
    getSerializedValues s n onlyEntireArgvArgument
      = s.splitOn (separatorOf onlyEntireArgvArgument) ∧
    separatorOf false = ',' ∧ separatorOf true = ' ' := by
  refine ⟨?_, rfl, rfl⟩
  simp only [getSerializedValues, vectorReserve, Function.const]
  rw [getSerializedValuesLoop_eq onlyEntireArgvArgument s.length s 0 [] [] hne (by simp) hlast
    hr hn]
  cases (s.splitOn (separatorOf onlyEntireArgvArgument)) <;> simp [List.modifyHead]

/-- C19, witness: the string `,a,,bc` has the fields (empty), `a`, (empty), `bc`. -/
theorem getSerializedValues_splits_witness :
    getSerializedValues [',', 'a', ',', ',', 'b', 'c'] 9 false
      = [',', 'a', ',', ',', 'b', 'c'].splitOn (separatorOf false) ∧
    getSerializedValues [',', 'a', ',', ',', 'b', 'c'] 9 false
      = [[], ['a'], [], ['b', 'c']] :=
  ⟨(getSerializedValues_splits [',', 'a', ',', ',', 'b', 'c'] 9 false (by decide) (by decide)
      (by decide) (by decide)).1, by decide⟩

theorem validateTonemapper_returns (m : variablesType)
    (ht : m DTEA.REINHARD ≠ none ∧ m DTEA.ACES ≠ none) :
    ∃ o, validateTonemapper m = some o ∧ o.returned = true := by
  obtain ⟨hr, ha⟩ := ht
  cases hre : m DTEA.REINHARD with
  | none => exact absurd hre hr
  | some reinhard =>
    cases hac : m DTEA.ACES with
    | none => exact absurd hac ha
    | some aces =>
      simp only [validateTonemapper, hre, hac]
      exact ⟨_, rfl, rfl⟩

theorem validateMandatoryLoop_spec (m : variablesType)
    (ht : m DTEA.REINHARD ≠ none ∧ m DTEA.ACES ≠ none) (l : List DTEA) :
    (∀ a, a ∈ l → m a ≠ none) →
    ∃ o, validateMandatoryLoop m l = some o ∧
      (o.returned = true ↔ ∀ a, a ∈ l → ∃ v, m a = some (some v)) := by
  induction l with
  | nil =>
    intro _
    obtain ⟨o, ho, hret⟩ := validateTonemapper_returns m ht
    refine ⟨o, ho, ?_⟩
    simp [hret]
  | cons a rest ih =>
    intro hkeys
    obtain ⟨o, ho, hiff⟩ := ih (fun b hb => hkeys b (List.mem_cons_of_mem _ hb))
    cases hma : m a with
    | none => exact absurd hma (hkeys a (List.mem_cons_self _ _))
    | some value =>
      cases value with
      | none =>
        refine ⟨_, by simp only [validateMandatoryLoop, hma, Option.isSome]; rfl, ?_⟩
        constructor
        · intro h; cases h
        · intro h
          obtain ⟨v, hv⟩ := h a (List.mem_cons_self _ _)
          rw [hma] at hv
          cases hv
      | some v =>
        refine ⟨o, by simp only [validateMandatoryLoop, hma, Option.isSome, if_true]; exact ho,
          ?_⟩
        rw [hiff]
        constructor
        · intro h b hb
          rcases List.mem_cons.mp hb with hb | hb
          · exact ⟨v, hb ▸ hma⟩
          · exact h b hb
        · intro h b hb
          exact h b (List.mem_cons_of_mem _ hb)

theorem validateMandatoryLoop_congr (m1 m2 : variablesType) (l : List DTEA)
    (hsame : ∀ a, a ∈ l → m1 a = m2 a)
    (hlast : (validateTonemapper m1).map (fun o => o.returned)
      = (validateTonemapper m2).map (fun o => o.returned)) :
    (validateMandatoryLoop m1 l).map (fun o => o.returned)
      = (validateMandatoryLoop m2 l).map (fun o => o.returned) := by
  induction l with
  | nil => exact hlast
  | cons a rest ih =>
    have hrest := ih (fun b hb => hsame b (List.mem_cons_of_mem _ hb))
    simp only [validateMandatoryLoop, ← hsame a (List.mem_cons_self _ _)]
    cases m1 a with
    | none => rfl
    | some value =>
      cases value with
      | none => rfl
      | some v => simpa using hrest

/-- C18: `validateMandatoryParameters`, assertions compiled out, on a map that holds the
keys of the seven mandatory arguments and of the two tonemappers (as every map set up by
`initializeMatchingMap` does; `at` throws otherwise): it returns, and it returns `true` if
and only if the color file, the camera transform, the median filter radius, the denoiser
exposure bias, the denoiser blend factor, the bloom FoV and the output each have a value.
Its result does not depend on the Reinhard and ACES entries: two such maps that differ
only in the tonemapper entries get the same result. -/
theorem validateMandatoryParameters_iff (m : variablesType)
    (hkeys : m DTEA.COLOR_FILE ≠ none ∧ m DTEA.CAMERA_TRANSFORM ≠ none ∧
      m DTEA.MEDIAN_FILTER_RADIUS ≠ none ∧ m DTEA.DENOISER_EXPOSURE_BIAS ≠ none ∧
      m DTEA.DENOISER_BLEND_FACTOR ≠ none ∧ m DTEA.BLOOM_FOV ≠ none ∧ m DTEA.OUTPUT ≠ none)
    (ht : m DTEA.REINHARD ≠ none ∧ m DTEA.ACES ≠ none) :
    (∃ o, validateMandatoryParameters m = some o ∧
      (o.returned = true ↔
        (∃ v, m DTEA.COLOR_FILE = some (some v)) ∧
        (∃ v, m DTEA.CAMERA_TRANSFORM = some (some v)) ∧
        (∃ v, m DTEA.MEDIAN_FILTER_RADIUS = some (some v)) ∧
        (∃ v, m DTEA.DENOISER_EXPOSURE_BIAS = some (some v)) ∧
        (∃ v, m DTEA.DENOISER_BLEND_FACTOR = some (some v)) ∧
        (∃ v, m DTEA.BLOOM_FOV = some (some v)) ∧
        (∃ v, m DTEA.OUTPUT = some (some v)))) ∧
    (∀ m2 : variablesType,
      (∀ a, a ≠ DTEA.REINHARD → a ≠ DTEA.ACES → m a = m2 a) →
      m2 DTEA.REINHARD ≠ none ∧ m2 DTEA.ACES ≠ none →
      (validateMandatoryParameters m).map (fun o => o.returned)
        = (validateMandatoryParameters m2).map (fun o => o.returned)) := by
  refine ⟨?_, ?_⟩
  · have hk : ∀ a, a ∈ mandatoryArgumentsOrdinary → m a ≠ none := by
      intro a ha
      simp only [mandatoryArgumentsOrdinary, List.mem_cons, List.mem_singleton,
        List.not_mem_nil, or_false] at ha
      obtain ⟨h1, h2, h3, h4, h5, h6, h7⟩ := hkeys
      rcases ha with h | h | h | h | h | h | h <;> subst h <;> assumption
    obtain ⟨o, ho, hiff⟩ := validateMandatoryLoop_spec m ht mandatoryArgumentsOrdinary hk
    refine ⟨o, ho, ?_⟩
    rw [hiff]
    simp only [mandatoryArgumentsOrdinary, List.mem_cons, List.mem_singleton,
      List.not_mem_nil, or_false, forall_eq_or_imp, forall_eq]
  · intro m2 hsame ht2
    apply validateMandatoryLoop_congr
    · intro a ha
      apply hsame a
      · intro h; subst h; revert ha; decide
      · intro h; subst h; revert ha; decide
    · obtain ⟨o1, h1, r1⟩ := validateTonemapper_returns m ht
      obtain ⟨o2, h2, r2⟩ := validateTonemapper_returns m2 ht2
      rw [h1, h2]
      simp [r1, r2]

/-- C18, witness: a map with all seven mandatory values and both tonemappers given (which
is logged, but does not change the result) returns `true`, as does the same map with no
tonemapper; the map that lacks only the value of the output returns `false`. -/
theorem validateMandatoryParameters_iff_witness :
    ((validateMandatoryParameters
        (exampleVariables ['x'] (some [['1'], ['2']]) (some []) none)).map
        (fun o => o.returned)
      = (validateMandatoryParameters (exampleVariables ['x'] none none none)).map
        (fun o => o.returned)) ∧
    validateMandatoryParameters (exampleVariables ['x'] (some [['1'], ['2']]) (some []) none)
      = some { returned := true, statusCleared := true,
               log := [ValidationMessage.onlyOneTonemapper] } ∧
    (∃ o, validateMandatoryParameters
          (exampleVariables ['x'] (some [['1'], ['2']]) none (some DTEA.OUTPUT)) = some o ∧
      o.returned = false) :=
  ⟨(validateMandatoryParameters_iff
      (exampleVariables ['x'] (some [['1'], ['2']]) (some []) none)
      (by decide) (by decide)).2 (exampleVariables ['x'] none none none)
      (fun a h1 h2 => by simp [exampleVariables, h1, h2]) (by decide),
    by decide, ⟨_, rfl, rfl⟩⟩


/-! ### Calls of several producers -/

theorem runCall_returned {σ α : Type} (A : AddressAllocator σ α) (signalled : Nat → Bool)
    (n : Nat) (st : StreamingTransientDataBufferMT σ) (out : Ptr) (v : Nat) :
    runCall A signalled n (st, CallInProgress.returned out v)
      = (st, CallInProgress.returned out v) := by
  induction n with
  | zero => rfl
  | succ n ih => simp only [runCall, callStep]; exact ih

/-- Run without another call in between, the steps of the loop of `multi_alloc` give the
result of `multi_alloc_loop`. -/
theorem runCall_loop {σ α : Type} (A : AddressAllocator σ α) (signalled : Nat → Bool)
    (count : Nat) (bytes : Ptr) (args : α) (mwp : Nat) (clock : List Nat) :
    ∀ (st : StreamingTransientDataBufferMT σ) (out : Ptr) (u : Nat),
      runCall A signalled (2 * (clock.length + 1))
          (st, CallInProgress.multi_alloc_wait mwp clock count out bytes args u)
        = ((multi_alloc_loop A signalled count bytes args mwp clock st out u).1,
            CallInProgress.returned
              (multi_alloc_loop A signalled count bytes args mwp clock st out u).2.1
              (multi_alloc_loop A signalled count bytes args mwp clock st out u).2.2) := by
  induction clock with
  | nil =>
    intro st out u
    rw [multi_alloc_loop]
    simp only [List.length_nil, runCall, callStep]
    split <;> rfl
  | cons now later ih =>
    intro st out u
    rw [multi_alloc_loop]
    have hlen : 2 * ((now :: later).length + 1) = 2 * (later.length + 1) + 1 + 1 := by
      simp only [List.length_cons]; omega
    rw [hlen]
    simp only [runCall, callStep]
    by_cases h0 : (try_multi_alloc A (waitUntilForReadyEvents A signalled st mwp u) count out
        bytes args).2.2 = 0
    · simp only [h0, if_true]
      exact runCall_returned A signalled _ _ _ _
    · by_cases hn : now < mwp
      · simp only [h0, if_false, hn, if_true]
        exact ih _ _ _
      · simp only [h0, if_false, hn]
        exact runCall_returned A signalled _ _ _ _

theorem runCall_add {σ α : Type} (A : AddressAllocator σ α) (signalled : Nat → Bool)
    (n m : Nat) :
    ∀ x : StreamingTransientDataBufferMT σ × CallInProgress α,
      runCall A signalled (n + m) x = runCall A signalled m (runCall A signalled n x) := by
  induction n with
  | zero => intro x; simp only [Nat.zero_add, runCall]
  | succ n ih =>
    intro x
    have h : n + 1 + m = (n + m) + 1 := by omega
    rw [h]
    simp only [runCall]
    exact ih _

/-- Run without another call in between, the steps of `multi_alloc` give the result of
`multi_alloc`, after at most `2 * clock.length + 3` of them. -/
theorem runCall_multi_alloc {σ α : Type} (A : AddressAllocator σ α) (signalled : Nat → Bool)
    (clock : List Nat) (st : StreamingTransientDataBufferMT σ) (count : Nat)
    (outAddresses bytes : Ptr) (args : α) (n : Nat) (hn : 2 * clock.length + 3 ≤ n) :
    runCall A signalled n
        (st, CallInProgress.multi_alloc_entry clock count outAddresses bytes args)
      = ((multi_alloc A signalled clock st count outAddresses bytes args).1,
          CallInProgress.returned
            (multi_alloc A signalled clock st count outAddresses bytes args).2.1
            (multi_alloc A signalled clock st count outAddresses bytes args).2.2) := by
  have hlen : clock.tail.length = clock.length - 1 := List.length_tail clock
  obtain ⟨k, hk⟩ : ∃ k, n = (2 * (clock.tail.length + 1) + k) + 1 :=
    ⟨n - (2 * (clock.tail.length + 1) + 1), by omega⟩
  rw [hk]
  simp only [runCall, callStep, multi_alloc, multi_alloc_within]
  by_cases h0 : (try_multi_alloc A st count outAddresses bytes args).2.2 = 0
  · simp only [h0, if_true]
    exact runCall_returned A signalled _ _ _ _
  · simp only [h0, if_false]
    rw [runCall_add, runCall_loop]
    exact runCall_returned A signalled _ _ _ _

/-- C13 (counterexample): on a buffer with 60 free bytes, the first producer calls
`multi_alloc` for 90 bytes and the second calls `multi_free` on the range (0, 100). Under
the schedule first, second, first, first the call of the second producer runs, and changes
the allocator, while the call of the first is in progress after its failed first attempt:
the first call then obtains the block the second has just freed. The trace of the calls on
the collaborators has the `free` of the second call between the first attempt and the wait
of the first call, and is the trace of neither serial order of the two calls. -/
theorem mt_calls_interleave :
    (runSchedule (freeListAllocator Unit) noneSignalled [false] exampleProducers).first.phase
      = 1 ∧
    (runSchedule (freeListAllocator Unit) noneSignalled [false]
      exampleProducers).buffer.mAllocator = [(600, 60)] ∧
    (runSchedule (freeListAllocator Unit) noneSignalled [false, true]
      exampleProducers).first.phase = 1 ∧
    (runSchedule (freeListAllocator Unit) noneSignalled [false, true]
      exampleProducers).second.returnValue = some 0 ∧
    (runSchedule (freeListAllocator Unit) noneSignalled [false, true]
      exampleProducers).buffer.mAllocator = [(0, 100), (600, 60)] ∧
    (runSchedule (freeListAllocator Unit) noneSignalled [false, true, false, false]
      exampleProducers).first.returnValue = some 0 ∧
    (runSchedule (freeListAllocator Unit) noneSignalled [false, true, false, false]
      exampleProducers).buffer.mAllocator = [(90, 10), (600, 60)] ∧
    (runSchedule (freeListAllocator Unit) noneSignalled [false, true, false, false]
      exampleProducers).buffer.trace
        = [Event.alloc [90], Event.free [(0, 100)], Event.wait 50000 90, Event.alloc [90]] ∧
    (runSchedule (freeListAllocator Unit) noneSignalled [false, false, false, true]
      exampleProducers).first.returnValue = some 90 ∧
    (runSchedule (freeListAllocator Unit) noneSignalled [false, false, false, true]
      exampleProducers).buffer.trace
        = [Event.alloc [90], Event.wait 50000 90, Event.alloc [90], Event.free [(0, 100)]] ∧
    (runSchedule (freeListAllocator Unit) noneSignalled [true, false]
      exampleProducers).buffer.trace = [Event.free [(0, 100)], Event.alloc [90]] := by
  decide

theorem callStep_multi_free {σ α : Type} (A : AddressAllocator σ α) (signalled : Nat → Bool)
    (st : StreamingTransientDataBufferMT σ) (count : Nat) (addr sizes : Ptr)
    (fence : Option Nat) :
    (callStep A signalled st
        (CallInProgress.multi_free_entry count addr sizes fence : CallInProgress α)).1
      = (multi_free A st count addr sizes fence).getD st := by
  simp only [callStep]
  cases multi_free A st count addr sizes fence <;> rfl

/-- C13 (amended): `StreamingTransientDataBufferMT` is `StreamingTransientDataBufferST`
under another name, the same state and the same methods with no lock. A call of
`multi_alloc` that runs with no other call in between returns, after at most
`2 * clock.length + 3` steps, the result of the method of the single-producer class, and a
call of `multi_free` is one step with the result of that class's `multi_free` (it returns
when that is defined, as it is without a fence); and whatever point the call of the other
producer has reached, the producer chosen by the scheduler takes its step. -/
theorem mt_is_unlocked_st {σ α : Type} (A : AddressAllocator σ α) (signalled : Nat → Bool)
    (clock : List Nat) (st : StreamingTransientDataBufferMT σ) (count : Nat)
    (outAddresses bytes : Ptr) (args : α) (addr sizes : Ptr) (fence : Option Nat)
    (other : CallInProgress α) (n : Nat) (hn : 2 * clock.length + 3 ≤ n) :
    StreamingTransientDataBufferMT σ = StreamingTransientDataBufferST σ ∧
    runCall A signalled n
        (st, CallInProgress.multi_alloc_entry clock count outAddresses bytes args)
      = ((multi_alloc A signalled clock st count outAddresses bytes args).1,
          CallInProgress.returned
            (multi_alloc A signalled clock st count outAddresses bytes args).2.1
            (multi_alloc A signalled clock st count outAddresses bytes args).2.2) ∧
    callStep A signalled st (CallInProgress.multi_free_entry count addr sizes fence)
      = (match multi_free A st count addr sizes fence with
        | some st1 => (st1, CallInProgress.returned addr 0)
        | none => (st, CallInProgress.undefined)) ∧
    (scheduleStep A signalled
        { buffer := st, first := other,
          second := CallInProgress.multi_free_entry count addr sizes fence } true).buffer
      = (multi_free A st count addr sizes fence).getD st ∧
    (scheduleStep A signalled
        { buffer := st, first := CallInProgress.multi_free_entry count addr sizes fence,
          second := other } false).buffer
      = (multi_free A st count addr sizes fence).getD st ∧
    (some (callStep A signalled st
        (CallInProgress.multi_free_entry count addr sizes none : CallInProgress α)).1
        = multi_free A st count addr sizes none ∧
      (callStep A signalled st
        (CallInProgress.multi_free_entry count addr sizes none : CallInProgress α)).2.phase
        = 2) ∧
    some (scheduleStep A signalled
        { buffer := st, first := other,
          second := CallInProgress.multi_free_entry count addr sizes none } true).buffer
      = multi_free A st count addr sizes none ∧
    some (scheduleStep A signalled
        { buffer := st, first := CallInProgress.multi_free_entry count addr sizes none,
          second := other } false).buffer
      = multi_free A st count addr sizes none :=
  ⟨rfl, runCall_multi_alloc A signalled clock st count outAddresses bytes args n hn, rfl,
    callStep_multi_free A signalled st count addr sizes fence,
    callStep_multi_free A signalled st count addr sizes fence, ⟨rfl, rfl⟩, rfl, rfl⟩

/-- C13 (amended), witness: the first producer of the example alone on its buffer, run
for seven steps. -/
theorem mt_is_unlocked_st_witness :
    2 * ([0, 50000] : List Nat).length + 3 ≤ 7 ∧
    (runCall (freeListAllocator Unit) noneSignalled 7
        (exampleBuffer [(600, 60)] [],
          CallInProgress.multi_alloc_entry [0, 50000] 1 allInvalid (fun _ => 90)
            ())).2.returnValue
      = some (multi_alloc (freeListAllocator Unit) noneSignalled [0, 50000]
          (exampleBuffer [(600, 60)] []) 1 allInvalid (fun _ => 90) ()).2.2 :=
  ⟨by decide,
    by
      rw [(mt_is_unlocked_st (freeListAllocator Unit) noneSignalled [0, 50000]
        (exampleBuffer [(600, 60)] []) 1 allInvalid (fun _ => 90) () (fun _ => 0)
        (fun _ => 100) none (CallInProgress.returned allInvalid 0) 7 (by decide)).2.1]
      rfl⟩

end irr
